import Mathlib

/-!
Verification development for the JiraAutomator repository (Importer.py,
ColumnUpdater.py, DependencyUpdater.py, Runner.py).

The Python sources are shallowly embedded: Python strings become `List Char`
(wrapped in `String` where convenient), remote HTTP calls become oracle
functions supplied by a `Tracker` record, exceptions become `Except Unit`,
and each run returns the ordered list of MUTATING remote calls it performed
(`List Call`) together with its outcome.  Non-mutating GET/search calls are
not traced; their possible failure is modelled through the oracle's
`Except` results.
-/

namespace JiraAutomator

/-! ### Python string primitives (str.strip, str.lower, str.split) -/

/-- Characters removed by Python `str.strip()` (ASCII whitespace). -/
def pyIsSpace (c : Char) : Bool :=
  c = ' ' || c = '\t' || c = '\n' || c = '\r' || c = '\x0b' || c = '\x0c'

/-- ASCII lower-casing of one character, as Python `str.lower` does on ASCII. -/
def pyToLower (c : Char) : Char :=
  if 65 ≤ c.toNat ∧ c.toNat ≤ 90 then Char.ofNat (c.toNat + 32) else c

/-- Python `s.strip()` on a character list. -/
def pyStrip (cs : List Char) : List Char :=
  ((cs.dropWhile pyIsSpace).reverse.dropWhile pyIsSpace).reverse

/-- Python `s.lower()` on a character list. -/
def pyLower (cs : List Char) : List Char := cs.map pyToLower

/-- Python `s.strip()` on `String`. -/
def pyStripS (s : String) : String := String.mk (pyStrip s.data)

/-- Python `s.lower()` on `String`. -/
def pyLowerS (s : String) : String := String.mk (pyLower s.data)

/-! ### ColumnUpdater.normalize_date

`normalize_date` strips the input, maps the sentinels "", "nan", "none",
"null" (case-insensitively) to `none`, then tries a fixed list of
`datetime.strptime` formats in order and finally a `fromisoformat` date
parse; any successful parse is re-rendered with `strftime("%Y-%m-%d")`,
i.e. zero-padded `yyyy-mm-dd`. -/

def digitChars : List Char := ['0', '1', '2', '3', '4', '5', '6', '7', '8', '9']

/-- The decimal digit character for `n % 10`. -/
def digitChar (n : Nat) : Char := digitChars.getD (n % 10) '0'

/-- Zero-padded two-digit rendering (`%m`, `%d` in `strftime`). -/
def pad2 (n : Nat) : List Char := [digitChar (n / 10), digitChar n]

/-- Zero-padded four-digit rendering (`%Y` in `strftime`). -/
def pad4 (n : Nat) : List Char :=
  [digitChar (n / 1000), digitChar (n / 100), digitChar (n / 10), digitChar n]

/-- Numeric value of a digit character. -/
def digitVal (c : Char) : Nat := c.toNat - 48

/-- Numeric value of a digit string. -/
def digitsVal (cs : List Char) : Nat := cs.foldl (fun a c => 10 * a + digitVal c) 0

def allDigits (cs : List Char) : Bool := cs.all Char.isDigit

/-- Parse a run of digits whose length lies in `[lo, hi]` (the `strptime`
field patterns: `%Y` is exactly 4 digits, `%m`/`%d` are 1 or 2 digits). -/
def parseNum (cs : List Char) (lo hi : Nat) : Option Nat :=
  if lo ≤ cs.length ∧ cs.length ≤ hi ∧ allDigits cs then some (digitsVal cs) else none

def isLeap (y : Nat) : Bool := y % 4 = 0 && (y % 100 ≠ 0 || y % 400 = 0)

def daysInMonth (y m : Nat) : Nat :=
  if m = 2 then (if isLeap y then 29 else 28)
  else if m = 4 ∨ m = 6 ∨ m = 9 ∨ m = 11 then 30 else 31

/-- Validity of a proleptic-Gregorian date as enforced by Python
`datetime` construction (year 1..9999, real calendar day). -/
def validDate (y m d : Nat) : Bool :=
  decide (1 ≤ y) && decide (y ≤ 9999) && decide (1 ≤ m) && decide (m ≤ 12) &&
  decide (1 ≤ d) && decide (d ≤ daysInMonth y m)

/-- `datetime(y, m, d)`: succeeds exactly on valid dates. -/
def checkDate (y m d : Nat) : Option (Nat × Nat × Nat) :=
  if validDate y m d then some (y, m, d) else none

/-- Split off the part of `cs` before the first occurrence of `sep`;
the second component is the remainder after that separator, if any. -/
def breakSep (sep : Char) : List Char → List Char × Option (List Char)
  | [] => ([], none)
  | c :: cs =>
    if c = sep then ([], some cs)
    else
      let r := breakSep sep cs
      (c :: r.1, r.2)

/-- `s.split(sep)` restricted to the exactly-three-parts shape that a
three-field `strptime` format requires. -/
def splitSep3 (sep : Char) (cs : List Char) : Option (List Char × List Char × List Char) :=
  match breakSep sep cs with
  | (_, none) => none
  | (p1, some r1) =>
    match breakSep sep r1 with
    | (_, none) => none
    | (p2, some r2) =>
      if (breakSep sep r2).2.isSome then none else some (p1, p2, r2)

/-- `strptime` with format `%Y<sep>%m<sep>%d`. -/
def parseYMDsep (sep : Char) (cs : List Char) : Option (Nat × Nat × Nat) :=
  match splitSep3 sep cs with
  | none => none
  | some (a, b, c) =>
    match parseNum a 4 4, parseNum b 1 2, parseNum c 1 2 with
    | some y, some m, some d => checkDate y m d
    | _, _, _ => none

/-- `strptime` with format `%d<sep>%m<sep>%Y`. -/
def parseDMYsep (sep : Char) (cs : List Char) : Option (Nat × Nat × Nat) :=
  match splitSep3 sep cs with
  | none => none
  | some (a, b, c) =>
    match parseNum a 1 2, parseNum b 1 2, parseNum c 4 4 with
    | some d, some m, some y => checkDate y m d
    | _, _, _ => none

/-- `strptime` with format `%m<sep>%d<sep>%Y`. -/
def parseMDYsep (sep : Char) (cs : List Char) : Option (Nat × Nat × Nat) :=
  match splitSep3 sep cs with
  | none => none
  | some (a, b, c) =>
    match parseNum a 1 2, parseNum b 1 2, parseNum c 4 4 with
    | some m, some d, some y => checkDate y m d
    | _, _, _ => none

def monthAbbrevNames : List (List Char) :=
  ["jan".data, "feb".data, "mar".data, "apr".data, "may".data, "jun".data,
   "jul".data, "aug".data, "sep".data, "oct".data, "nov".data, "dec".data]

def monthFullNames : List (List Char) :=
  ["january".data, "february".data, "march".data, "april".data, "may".data,
   "june".data, "july".data, "august".data, "september".data, "october".data,
   "november".data, "december".data]

/-- 1-based month number of a (lower-cased) month-name token. -/
def monthIdx : List (List Char) → List Char → Option Nat
  | [], _ => none
  | t :: ts, w => if w = t then some 1 else (monthIdx ts w).map (· + 1)

def wordsAux : List Char → List Char → List (List Char)
  | [], acc => if acc = [] then [] else [acc.reverse]
  | c :: cs, acc =>
    if pyIsSpace c then
      (if acc = [] then wordsAux cs [] else acc.reverse :: wordsAux cs [])
    else wordsAux cs (c :: acc)

/-- Whitespace-run tokenisation (literal blanks in a `strptime` format
match one or more whitespace characters). -/
def words (cs : List Char) : List (List Char) := wordsAux cs []

/-- `strptime` with format `%d <month-name> %Y` (month names matched
case-insensitively, as `_strptime` does). -/
def parseDMonY (tbl : List (List Char)) (cs : List Char) : Option (Nat × Nat × Nat) :=
  match words cs with
  | [a, b, c] =>
    match parseNum a 1 2, monthIdx tbl (pyLower b), parseNum c 4 4 with
    | some d, some m, some y => checkDate y m d
    | _, _, _ => none
  | _ => none

/-- `strptime` with format `<month-name> %d %Y`. -/
def parseMonDY (tbl : List (List Char)) (cs : List Char) : Option (Nat × Nat × Nat) :=
  match words cs with
  | [a, b, c] =>
    match monthIdx tbl (pyLower a), parseNum b 1 2, parseNum c 4 4 with
    | some m, some d, some y => checkDate y m d
    | _, _, _ => none
  | _ => none

/-- The date component of `datetime.fromisoformat`: a zero-padded
`yyyy-mm-dd` string (the final fallback in `normalize_date`). -/
def parseIsoDate (cs : List Char) : Option (Nat × Nat × Nat) :=
  match cs with
  | [y1, y2, y3, y4, h1, m1, m2, h2, d1, d2] =>
    if h1 = '-' ∧ h2 = '-' ∧ allDigits [y1, y2, y3, y4] ∧ allDigits [m1, m2] ∧
        allDigits [d1, d2] then
      checkDate (digitsVal [y1, y2, y3, y4]) (digitsVal [m1, m2]) (digitsVal [d1, d2])
    else none
  | _ => none

/-- The `fmts` list of `normalize_date`, in source order. -/
def dateFormats : List (List Char → Option (Nat × Nat × Nat)) :=
  [parseYMDsep '-', parseDMYsep '/', parseDMYsep '-', parseMDYsep '/', parseMDYsep '-',
   parseDMonY monthAbbrevNames, parseDMonY monthFullNames,
   parseMonDY monthAbbrevNames, parseMonDY monthFullNames,
   parseYMDsep '/']

/-- Try the formats in order; first successful parse wins. -/
def tryFormats : List (List Char → Option (Nat × Nat × Nat)) → List Char →
    Option (Nat × Nat × Nat)
  | [], _ => none
  | f :: fs, cs =>
    match f cs with
    | some r => some r
    | none => tryFormats fs cs

/-- `dt.strftime("%Y-%m-%d")`. -/
def formatDate (y m d : Nat) : List Char := pad4 y ++ '-' :: pad2 m ++ '-' :: pad2 d

def sentinelWords : List (List Char) := ["nan".data, "none".data, "null".data]

/-- `ColumnUpdater.normalize_date`. -/
def normalize_date (cs : List Char) : Option (List Char) :=
  if pyStrip cs = [] ∨ pyLower (pyStrip cs) ∈ sentinelWords then none
  else
    match tryFormats dateFormats (pyStrip cs) with
    | some (y, m, d) => some (formatDate y m d)
    | none =>
      match parseIsoDate (pyStrip cs) with
      | some (y, m, d) => some (formatDate y m d)
      | none => none

/-- Recogniser for the `yyyy-mm-dd` output shape. -/
def isYmdShape (r : List Char) : Bool :=
  match r with
  | [a, b, c, d, h1, e, f, h2, g, h] =>
    allDigits [a, b, c, d, e, f, g, h] && h1 = '-' && h2 = '-'
  | _ => false

/-! ### ColumnUpdater: Jira.search_issue_by_summary

The remote search returns up to `maxResults` issues; the resolver prefers
the first exact (strip + lower) summary match and otherwise falls back to
the first returned issue; an empty result set yields `none` (row skip). -/

structure JIssue where
  key : String
  summary : String
deriving DecidableEq

/-- Case-insensitive (stripped) summary equality used by the resolver. -/
def ciMatch (q : String) (it : JIssue) : Bool :=
  pyLower (pyStrip it.summary.data) = pyLower (pyStrip q.data)

/-- The resolver's scan loop for the first exact match. -/
def firstExact (q : String) : List JIssue → Option JIssue
  | [] => none
  | it :: rest => if ciMatch q it then some it else firstExact q rest

/-- The `maxResults` bound sent in the search payload. -/
def search_maxResults : Nat := 5

/-- Selection logic of `Jira.search_issue_by_summary`, applied to the
result set of the search call. -/
def search_issue_by_summary (q : String) (issues : List JIssue) : Option String :=
  match firstExact q issues with
  | some it => some it.key
  | none =>
    match issues with
    | [] => none
    | it :: _ => some it.key

/-! ### Importer: jira_post retry loop

`jira_post` performs up to `MAX_RETRIES + 1` attempts; a response with an
HTTP status (even an error status) returns immediately, and only a
connection-level exception is retried, once.  `jira_get` / `jira_delete`
perform a single request.  Both `create_issue` and `link_issue` go through
`jira_post`. -/

inductive PostAttempt
  | exc
  | status (code : Nat)
deriving DecidableEq

def MAX_RETRIES : Nat := 1

/-- The `for attempt in range(MAX_RETRIES + 1)` loop of `jira_post`,
returning the number of HTTP attempts performed and the outcome
(`.error` = the exception propagates). -/
def postAttempts (resp : Nat → PostAttempt) : Nat → Nat → Nat × Except Unit Nat
  | _, 0 => (0, Except.error ())
  | attempt, fuel + 1 =>
    match resp attempt with
    | PostAttempt.status code => (1, Except.ok code)
    | PostAttempt.exc =>
      if attempt < MAX_RETRIES then
        let r := postAttempts resp (attempt + 1) fuel
        (r.1 + 1, r.2)
      else (1, Except.error ())

/-- `Importer.jira_post` (live mode): attempt count and outcome. -/
def jira_post (resp : Nat → PostAttempt) : Nat × Except Unit Nat :=
  postAttempts resp 0 (MAX_RETRIES + 1)

/-- `Importer.jira_get`: a single request, no retry. -/
def jira_get (resp : PostAttempt) : Nat × Except Unit Nat :=
  match resp with
  | PostAttempt.status c => (1, Except.ok c)
  | PostAttempt.exc => (1, Except.error ())

/-- `Importer.jira_delete`: a single request, no retry. -/
def jira_delete (resp : PostAttempt) : Nat × Except Unit Nat :=
  match resp with
  | PostAttempt.status c => (1, Except.ok c)
  | PostAttempt.exc => (1, Except.error ())

/-- `Importer.create_issue` posts through `jira_post`. -/
def create_issue_post (resp : Nat → PostAttempt) : Nat × Except Unit Nat := jira_post resp

/-- `Importer.link_issue` posts through the same `jira_post` helper. -/
def link_issue_post (resp : Nat → PostAttempt) : Nat × Except Unit Nat := jira_post resp

/-- An attempt oracle: transient connection failure first, then HTTP 201. -/
def transientThenOk : Nat → PostAttempt
  | 0 => PostAttempt.exc
  | _ => PostAttempt.status 201

/-! ### Mutating remote calls (shared trace alphabet)

A run's trace lists every mutating remote call issued, in order.  The
`createIssue` event also records the key returned by the tracker (`none`
if the response status was an error). -/

inductive Call
  | createComponent (projectId name : String)
  | createVersion (projectId name : String)
  | updateIssue (key : String)
  | createLink (inward outward : String)
  | createIssue (summary : String) (parent : Option String) (resultKey : Option String)
  | deleteIssue (key : String)
deriving DecidableEq

def exOk {α : Type} : Except Unit α → Bool
  | Except.ok _ => true
  | Except.error _ => false

/-- First-match association-list lookup (Python dict lookup, with new
entries consed to the front so later writes shadow earlier ones). -/
def lookupBy {β : Type} : List (String × β) → String → Option β
  | [], _ => none
  | p :: rest, k => if p.1 = k then some p.2 else lookupBy rest k

/-! ### ColumnUpdater: rows, tracker oracle, caches -/

/-- A CSV row as `csv.DictReader` hands it to the updater (a missing
column reads as `none`; `row.get(c) or ""` treats it as `""`). -/
structure Row where
  issueKey : Option String
  summary : Option String
  startDate : Option String
  dueDate : Option String
  description : Option String
  priority : Option String
  labels : Option String
  components : Option String
  fixVersions : Option String
  dependencies : Option String
  assigneeEmail : Option String
  epicKey : Option String
  parentKey : Option String
deriving DecidableEq

/-- Row constructor for the columns the theorems exercise; all other
columns absent. -/
def mkRow (issueKey summary components dependencies : Option String) : Row :=
  ⟨issueKey, summary, none, none, none, none, none, components, none,
   dependencies, none, none, none⟩

structure CompEntry where
  name : String
  id : String
deriving DecidableEq

/-- Responses of the remote tracker for one ColumnUpdater run.
`Except.error` models a raised `RuntimeError` (`Jira._check`). -/
structure Tracker where
  projectResp : Except Unit String
  searchResp : String → Except Unit (List JIssue)
  componentsResp : Except Unit (List CompEntry)
  createComponentResp : String → Except Unit String
  versionsResp : Except Unit (List CompEntry)
  createVersionResp : String → Except Unit String
  userResp : String → Except Unit (Option String)
  updateResp : String → Bool
  linkResp : String → String → Bool

/-- Session caches plus run counters (`updated`, `linked`, `skipped`). -/
structure CUState where
  userCache : List (String × Option String)
  versionCache : List (String × String)
  compCache : Option (List (String × String))
  createdVersions : List CompEntry
  updated : Nat
  linked : Nat
  skipped : Nat
deriving DecidableEq

structure CUConfig where
  dryRun : Bool
  maxRows : Option Nat
  blockedByDirection : Bool
  startdateField : Option String
  epicField : String
  projectKey : String
deriving DecidableEq

inductive FieldVal
  | s (v : String)
  | strs (v : List String)
  | named (v : String)
  | ids (v : List String)
  | acct (v : String)
  | keyRef (v : String)
deriving DecidableEq

abbrev Fields := List (String × FieldVal)

/-- A traced, fallible computation: the mutating calls it issued (also on
failure, up to and including the failing call) and its result. -/
abbrev TRes (α : Type) := List Call × Except Unit α

/-- Python `s.split(",")`. -/
def splitCommaAux : List Char → List Char → List (List Char)
  | [], acc => [acc.reverse]
  | c :: cs, acc =>
    if c = ',' then acc.reverse :: splitCommaAux cs [] else splitCommaAux cs (c :: acc)

/-- `[x.strip() for x in s.split(",") if x.strip()]`. -/
def pySplitTrim (s : String) : List String :=
  (((splitCommaAux s.data []).map pyStrip).filter (fun cs => cs ≠ [])).map String.mk

/-- Python `isinstance(v, str) and v.strip()` truthiness for a cell. -/
def strPresent : Option String → Bool
  | some s => pyStrip s.data ≠ []
  | none => false

/-- The raw cell value with Python's `row.get(c, "")` default. -/
def presVal : Option String → String
  | some s => s
  | none => ""

/-- `normalize_date(row.get(c, ""))`. -/
def normStr (o : Option String) : Option String :=
  (normalize_date (presVal o).data).map String.mk

/-- `Jira.list_project_components`: fetch once, then serve from the cache
(the returned map IS the cache object, so callers mutate the cache). -/
def getComponentsMap (trk : Tracker) (st : CUState) :
    TRes (List (String × String) × CUState) :=
  match st.compCache with
  | some m => ([], Except.ok (m, st))
  | none =>
    match trk.componentsResp with
    | Except.error e => ([], Except.error e)
    | Except.ok comps =>
      let m := comps.map (fun c => (pyLowerS (pyStripS c.name), c.id))
      ([], Except.ok (m, { st with compCache := some m }))

/-- The component loop of `build_fields`: look each name up
case-insensitively; on a miss POST a new component and record it in the
(shared) map; a failed POST propagates. -/
def resolveComponents (trk : Tracker) (pid : String) :
    List String → List (String × String) → TRes (List String × List (String × String))
  | [], m => ([], Except.ok ([], m))
  | n :: rest, m =>
    match lookupBy m (pyLowerS n) with
    | some cid =>
      match resolveComponents trk pid rest m with
      | (t, Except.error e) => (t, Except.error e)
      | (t, Except.ok (ids, m2)) => (t, Except.ok (cid :: ids, m2))
    | none =>
      match trk.createComponentResp n with
      | Except.error e => ([Call.createComponent pid n], Except.error e)
      | Except.ok cid =>
        match resolveComponents trk pid rest ((pyLowerS n, cid) :: m) with
        | (t, Except.error e) => (Call.createComponent pid n :: t, Except.error e)
        | (t, Except.ok (ids, m2)) => (Call.createComponent pid n :: t, Except.ok (cid :: ids, m2))

/-- Case-insensitive scan of the version list. -/
def findVersionCI : List CompEntry → String → Option CompEntry
  | [], _ => none
  | v :: rest, n =>
    if pyLowerS (pyStripS v.name) = pyLowerS (pyStripS n) then some v
    else findVersionCI rest n

/-- `Jira.get_or_create_version`: consult the per-name cache, else list
the project's versions (remote ones plus those created earlier in this
run), else POST a new version. -/
def get_or_create_version (trk : Tracker) (pid : String) (st : CUState) (name : String) :
    TRes (String × CUState) :=
  match lookupBy st.versionCache name with
  | some vid => ([], Except.ok (vid, st))
  | none =>
    match trk.versionsResp with
    | Except.error e => ([], Except.error e)
    | Except.ok remote =>
      match findVersionCI (remote ++ st.createdVersions) name with
      | some v =>
        ([], Except.ok (v.id, { st with versionCache := (name, v.id) :: st.versionCache }))
      | none =>
        match trk.createVersionResp name with
        | Except.error e => ([Call.createVersion pid name], Except.error e)
        | Except.ok vid =>
          ([Call.createVersion pid name],
           Except.ok (vid, { st with versionCache := (name, vid) :: st.versionCache,
                                     createdVersions := st.createdVersions ++ [⟨name, vid⟩] }))

/-- The fix-version loop of `build_fields`. -/
def resolveVersions (trk : Tracker) (pid : String) :
    List String → CUState → TRes (List String × CUState)
  | [], st => ([], Except.ok ([], st))
  | n :: rest, st =>
    match get_or_create_version trk pid st n with
    | (t, Except.error e) => (t, Except.error e)
    | (t, Except.ok (vid, st2)) =>
      match resolveVersions trk pid rest st2 with
      | (t2, Except.error e) => (t ++ t2, Except.error e)
      | (t2, Except.ok (ids, st3)) => (t ++ t2, Except.ok (vid :: ids, st3))

/-- `Jira.resolve_user_account_id` (negative results are cached too). -/
def resolve_user (trk : Tracker) (st : CUState) (email : String) :
    TRes (Option String × CUState) :=
  match lookupBy st.userCache email with
  | some acct => ([], Except.ok (acct, st))
  | none =>
    match trk.userResp email with
    | Except.error e => ([], Except.error e)
    | Except.ok acct =>
      ([], Except.ok (acct, { st with userCache := (email, acct) :: st.userCache }))

/-- Components section of `build_fields`. -/
def bfComponents (trk : Tracker) (pid : String) (row : Row) (st : CUState) :
    TRes (Fields × CUState) :=
  if strPresent row.components then
    match getComponentsMap trk st with
    | (t, Except.error e) => (t, Except.error e)
    | (t, Except.ok (m, st1)) =>
      match resolveComponents trk pid (pySplitTrim (presVal row.components)) m with
      | (t2, Except.error e) => (t ++ t2, Except.error e)
      | (t2, Except.ok (ids, m2)) =>
        (t ++ t2, Except.ok ([("components", FieldVal.ids ids)], { st1 with compCache := some m2 }))
  else ([], Except.ok ([], st))

/-- Fix-versions section of `build_fields`. -/
def bfVersions (trk : Tracker) (pid : String) (row : Row) (st : CUState) :
    TRes (Fields × CUState) :=
  if strPresent row.fixVersions then
    match resolveVersions trk pid (pySplitTrim (presVal row.fixVersions)) st with
    | (t, Except.error e) => (t, Except.error e)
    | (t, Except.ok (ids, st1)) =>
      (t, Except.ok ([("fixVersions", FieldVal.ids ids)], st1))
  else ([], Except.ok ([], st))

/-- Assignee section of `build_fields` (best effort: no match omits the
field). -/
def bfAssignee (trk : Tracker) (row : Row) (st : CUState) : TRes (Fields × CUState) :=
  if strPresent row.assigneeEmail then
    match resolve_user trk st (pyStripS (presVal row.assigneeEmail)) with
    | (t, Except.error e) => (t, Except.error e)
    | (t, Except.ok (some acct, st1)) =>
      (t, Except.ok ([("assignee", FieldVal.acct acct)], st1))
    | (t, Except.ok (none, st1)) => (t, Except.ok ([], st1))
  else ([], Except.ok ([], st))

/-- `ColumnUpdater.build_fields`. -/
def build_fields (cfg : CUConfig) (trk : Tracker) (pid : String) (row : Row) (st : CUState) :
    TRes (Fields × CUState) :=
  let f1 : Fields :=
    match cfg.startdateField, normStr row.startDate with
    | some sf, some v => [(sf, FieldVal.s v)]
    | _, _ => []
  let f2 := f1 ++ (match normStr row.dueDate with
    | some v => [("duedate", FieldVal.s v)]
    | none => [])
  let f3 := f2 ++ (if strPresent row.description then
    [("description", FieldVal.s (presVal row.description))] else [])
  let f4 := f3 ++ (if strPresent row.priority then
    [("priority", FieldVal.named (pyStripS (presVal row.priority)))] else [])
  let f5 := f4 ++ (if strPresent row.labels then
    [("labels", FieldVal.strs (pySplitTrim (presVal row.labels)))] else [])
  match bfComponents trk pid row st with
  | (t, Except.error e) => (t, Except.error e)
  | (t, Except.ok (fc, st1)) =>
    match bfVersions trk pid row st1 with
    | (t2, Except.error e) => (t ++ t2, Except.error e)
    | (t2, Except.ok (fv, st2)) =>
      match bfAssignee trk row st2 with
      | (t3, Except.error e) => (t ++ t2 ++ t3, Except.error e)
      | (t3, Except.ok (fa, st3)) =>
        let fEpic := if strPresent row.epicKey then
          [(cfg.epicField, FieldVal.s (pyStripS (presVal row.epicKey)))] else []
        let fPar := if strPresent row.parentKey then
          [("parent", FieldVal.keyRef (pyStripS (presVal row.parentKey)))] else []
        (t ++ t2 ++ t3, Except.ok (f5 ++ fc ++ fv ++ fa ++ fEpic ++ fPar, st3))

inductive UpdateRes
  | dryEcho (key : String) (fields : Fields)
  | applied
deriving DecidableEq

/-- `Jira.update_issue_fields`: in dry-run echo the payload and perform no
remote call; live, PUT the delta (the call is traced even when the
response status makes `_check` raise). -/
def update_issue_fields (trk : Tracker) (key : String) (fields : Fields) (dryRun : Bool) :
    TRes UpdateRes :=
  if dryRun then ([], Except.ok (UpdateRes.dryEcho key fields))
  else if trk.updateResp key then ([Call.updateIssue key], Except.ok UpdateRes.applied)
  else ([Call.updateIssue key], Except.error ())

/-- `Jira.add_issue_link_is_blocked_by` (inward = blocked issue). -/
def add_issue_link_is_blocked_by (trk : Tracker) (key dep : String) (dryRun : Bool) :
    TRes Bool :=
  if dryRun then ([], Except.ok true)
  else if trk.linkResp key dep then ([Call.createLink key dep], Except.ok true)
  else ([Call.createLink key dep], Except.error ())

/-- The dependency loop of `ColumnUpdater.main`: each link call sits in
its own try/except, so a failed link is reported and the loop continues. -/
def processDeps (cfg : CUConfig) (trk : Tracker) (key : String) :
    List String → Nat → List Call × Nat
  | [], linked => ([], linked)
  | dep :: rest, linked =>
    let one := if cfg.blockedByDirection then
        add_issue_link_is_blocked_by trk key dep cfg.dryRun
      else add_issue_link_is_blocked_by trk dep key cfg.dryRun
    let linked2 := match one.2 with
      | Except.ok _ => linked + 1
      | Except.error _ => linked
    let r := processDeps cfg trk key rest linked2
    (one.1 ++ r.1, r.2)

/-- Processing of one resolved row: build the delta (failures propagate),
update inside try/except (failure only skips the counter), then process
the Dependencies column — the update's outcome does not gate it. -/
def cuRowWithKey (cfg : CUConfig) (trk : Tracker) (pid : String) (row : Row)
    (st : CUState) (key : String) : TRes CUState :=
  match build_fields cfg trk pid row st with
  | (t, Except.error e) => (t, Except.error e)
  | (t, Except.ok (fields, st1)) =>
    let upd := update_issue_fields trk key fields cfg.dryRun
    let st2 := match upd.2 with
      | Except.ok _ => { st1 with updated := st1.updated + 1 }
      | Except.error _ => st1
    let deps := if strPresent row.dependencies then pySplitTrim (presVal row.dependencies)
      else []
    let pl := processDeps cfg trk key deps st2.linked
    (t ++ upd.1 ++ pl.1, Except.ok { st2 with linked := pl.2 })

/-- One iteration of the row loop of `ColumnUpdater.main`.  The summary
search is NOT inside a try/except: its failure propagates. -/
def cuRow (cfg : CUConfig) (trk : Tracker) (pid : String) (row : Row) (st : CUState) :
    TRes CUState :=
  let key0 := pyStripS (presVal row.issueKey)
  let summary := pyStripS (presVal row.summary)
  if key0 = "" then
    if summary = "" then ([], Except.ok { st with skipped := st.skipped + 1 })
    else
      match trk.searchResp summary with
      | Except.error e => ([], Except.error e)
      | Except.ok issues =>
        match search_issue_by_summary summary issues with
        | none => ([], Except.ok { st with skipped := st.skipped + 1 })
        | some k => cuRowWithKey cfg trk pid row st k
  else cuRowWithKey cfg trk pid row st key0

/-- The truthiness test `args.max and updated >= args.max` (Python:
`--max 0` or no `--max` is falsy, so no cap). -/
def maxReached (mx : Option Nat) (updated : Nat) : Bool :=
  match mx with
  | some m => decide (m ≠ 0) && decide (m ≤ updated)
  | none => false

/-- The row loop, with the cooperative cap check before each row. -/
def cuLoop (cfg : CUConfig) (trk : Tracker) (pid : String) :
    List Row → CUState → TRes CUState
  | [], st => ([], Except.ok st)
  | row :: rest, st =>
    if maxReached cfg.maxRows st.updated then ([], Except.ok st)
    else
      match cuRow cfg trk pid row st with
      | (t, Except.error e) => (t, Except.error e)
      | (t, Except.ok st1) =>
        match cuLoop cfg trk pid rest st1 with
        | (t2, r) => (t ++ t2, r)

def initState : CUState := ⟨[], [], none, [], 0, 0, 0⟩

/-- `ColumnUpdater.main` after argument parsing: fetch the project
(pre-flight; failure aborts before any row), then run the row loop. -/
def cuMain (cfg : CUConfig) (trk : Tracker) (rows : List Row) : TRes CUState :=
  match trk.projectResp with
  | Except.error e => ([], Except.error e)
  | Except.ok pid => cuLoop cfg trk pid rows initState

/-! ### Importer: rows, tracker oracle, two-phase main -/

structure ImpRow where
  summary : String
  description : String
  issueType : String
  startDate : Option String
  dueDate : Option String
  dependsOn : Option String
deriving DecidableEq

structure ImpConfig where
  dryRun : Bool
  noWipe : Bool
  projectKey : String
deriving DecidableEq

/-- Tracker responses for an Importer run: the issue list the wipe search
finds (`Except.error` = `SystemExit` from a failed search), and the key
returned by the i-th live create call (`none` = HTTP error status). -/
structure ImpTracker where
  wipeSearch : Except Unit (List String)
  createResp : Nat → Option String

structure ImpState where
  created : List (String × String)
  pendingLinks : List (String × String)
  currentParent : Option String
  createCount : Nat
deriving DecidableEq

/-- `Importer.create_issue`: dry-run prints and returns `"DRY-KEY"`
without a remote call; live, POST and return the key (or `none`). -/
def imp_create_issue (cfg : ImpConfig) (trk : ImpTracker) (st : ImpState)
    (summary : String) (parent : Option String) : List Call × Option String × Nat :=
  if cfg.dryRun then ([], some "DRY-KEY", st.createCount)
  else
    match trk.createResp st.createCount with
    | some k => ([Call.createIssue summary parent (some k)], some k, st.createCount + 1)
    | none => ([Call.createIssue summary parent none], none, st.createCount + 1)

/-- `not current_parent or current_parent not in created` (Python
truthiness: an empty-string parent summary is falsy). -/
def parentInvalid (st : ImpState) : Bool :=
  match st.currentParent with
  | none => true
  | some s => s = "" || (lookupBy st.created s).isNone

/-- Dependency target resolution: a Task summary, or a sibling subtask
under the `Design` / `Approval` naming convention. -/
def resolveDep (created : List (String × String)) (dep : String) : Option String :=
  match lookupBy created dep with
  | some k => some k
  | none =>
    match lookupBy created (dep ++ ":Design") with
    | some k => some k
    | none => lookupBy created (dep ++ ":Approval")

/-- The `Task` branch of the Importer's row loop. -/
def impTaskRow (cfg : ImpConfig) (trk : ImpTracker) (row : ImpRow) (st : ImpState) :
    TRes ImpState :=
  match imp_create_issue cfg trk st row.summary none with
  | (t, none, _) => (t, Except.error ())
  | (t, some k, cnt) =>
    (t, Except.ok { st with created := (row.summary, k) :: st.created,
                            currentParent := some row.summary, createCount := cnt })

/-- The `Sub-task` branch once the parent key `pk` has been resolved. -/
def impSubRow (cfg : ImpConfig) (trk : ImpTracker) (row : ImpRow) (st : ImpState)
    (cp : String) (pk : String) : TRes ImpState :=
  match imp_create_issue cfg trk st row.summary (some pk) with
  | (t, none, _) => (t, Except.error ())
  | (t, some k, cnt) =>
    let st1 := { st with created := (cp ++ ":" ++ row.summary, k) :: st.created,
                         createCount := cnt }
    let dep := pyStripS (presVal row.dependsOn)
    if dep = "" then (t, Except.ok st1)
    else
      match resolveDep st1.created dep with
      | some dk =>
        (t, Except.ok { st1 with pendingLinks := st1.pendingLinks ++ [(dk, k)] })
      | none => (t, Except.ok st1)

/-- One iteration of the Importer's creation pass. -/
def impRow (cfg : ImpConfig) (trk : ImpTracker) (row : ImpRow) (st : ImpState) :
    TRes ImpState :=
  if row.issueType = "Task" then impTaskRow cfg trk row st
  else if row.issueType = "Sub-task" then
    if parentInvalid st then ([], Except.error ())
    else
      match st.currentParent with
      | none => ([], Except.error ())
      | some cp =>
        match lookupBy st.created cp with
        | none => ([], Except.error ())
        | some pk => impSubRow cfg trk row st cp pk
  else ([], Except.ok st)

/-- The creation/update pass over all rows. -/
def impLoop (cfg : ImpConfig) (trk : ImpTracker) : List ImpRow → ImpState → TRes ImpState
  | [], st => ([], Except.ok st)
  | row :: rest, st =>
    match impRow cfg trk row st with
    | (t, Except.error e) => (t, Except.error e)
    | (t, Except.ok st1) =>
      match impLoop cfg trk rest st1 with
      | (t2, r) => (t ++ t2, r)

/-- The dependency-linking pass: submitted only after the creation pass
drains; a link result is ignored, so no link aborts the sweep. -/
def linkPhase (cfg : ImpConfig) : List (String × String) → List Call
  | [] => []
  | (a, b) :: rest => (if cfg.dryRun then [] else [Call.createLink a b]) ++ linkPhase cfg rest

/-- `wipe_project` (gated by `--no-wipe`): enumerate then delete; the
search may abort (`SystemExit`), deletions never do. -/
def wipePhase (cfg : ImpConfig) (trk : ImpTracker) : TRes Unit :=
  if cfg.noWipe then ([], Except.ok ())
  else
    match trk.wipeSearch with
    | Except.error e => ([], Except.error e)
    | Except.ok keys =>
      ((if cfg.dryRun then [] else keys.map Call.deleteIssue), Except.ok ())

def impInit : ImpState := ⟨[], [], none, 0⟩

/-- `Importer.main` after pre-flight: wipe, create all issues, then link
all pending dependencies. -/
def impMain (cfg : ImpConfig) (trk : ImpTracker) (rows : List ImpRow) : TRes ImpState :=
  match wipePhase cfg trk with
  | (t, Except.error e) => (t, Except.error e)
  | (t, Except.ok _) =>
    match impLoop cfg trk rows impInit with
    | (t2, Except.error e) => (t ++ t2, Except.error e)
    | (t2, Except.ok st) => (t ++ t2 ++ linkPhase cfg st.pendingLinks, Except.ok st)

/-! ### Trace predicates -/

def isCreateLink : Call → Bool
  | Call.createLink _ _ => true
  | _ => false

/-- A row's primary mutation: an issue create or an issue update. -/
def isPrimaryCall : Call → Bool
  | Call.createIssue _ _ _ => true
  | Call.updateIssue _ => true
  | _ => false

/-- The two-phase ordering invariant: once a dependency-link call has
been issued, no further primary (create/update) call follows. -/
def linksAfterPrimaries : List Call → Bool
  | [] => true
  | c :: rest =>
    (!isCreateLink c || rest.all (fun e => !isPrimaryCall e)) && linksAfterPrimaries rest

def createCompName : Call → Option String
  | Call.createComponent _ n => some n
  | _ => none

/-- The lower-cased names of all component-create calls in a trace. -/
def createdCompNamesCI (tr : List Call) : List String :=
  (tr.filterMap createCompName).map pyLowerS

/-- Lower-cased (stripped) names of the project's remote components. -/
def loweredRemote (comps : List CompEntry) : List String :=
  comps.map (fun c => pyLowerS (pyStripS c.name))

/-- Invariant tying the component cache to the component-create calls
performed so far. -/
def compInv (remote : List String) (cache : Option (List (String × String)))
    (created : List String) : Prop :=
  created.Nodup ∧ (∀ x ∈ created, x ∉ remote) ∧
  match cache with
  | none => created = []
  | some m => (∀ x ∈ remote, (lookupBy m x).isSome) ∧ ∀ x ∈ created, (lookupBy m x).isSome

/-- For C10: scan the trace checking that every with-parent create names
the result key of the latest preceding parentless (Task) create. -/
def parentsLinkedOk : List Call → Option (Option String) → Bool
  | [], _ => true
  | Call.createIssue _ none k :: rest, _ => parentsLinkedOk rest (some k)
  | Call.createIssue _ (some p) _ :: rest, last =>
    decide (last = some (some p)) && parentsLinkedOk rest last
  | _ :: rest, last => parentsLinkedOk rest last

/-- The latest parentless create's result key after a trace. -/
def lastTaskKey : List Call → Option (Option String) → Option (Option String)
  | [], last => last
  | Call.createIssue _ none k :: rest, _ => lastTaskKey rest (some k)
  | _ :: rest, last => lastTaskKey rest last

/-- A `Sub-task` row occurs before any `Task` row. -/
def subBeforeTask : List ImpRow → Bool
  | [] => false
  | r :: rest =>
    if r.issueType = "Task" then false
    else if r.issueType = "Sub-task" then true
    else subBeforeTask rest

/-- Importer loop invariant for C10: what `currentParent` promises about
the trace scanned so far. -/
def impInv (st : ImpState) (last : Option (Option String)) : Prop :=
  match st.currentParent with
  | none => last = none
  | some s => ∃ k, last = some (some k) ∧ (s ≠ "" → lookupBy st.created s = some k)

/-! ### Concrete fixtures for witnesses and counterexamples -/

/-- A tracker where every remote call succeeds. -/
def okTrk : Tracker :=
  ⟨Except.ok "P1", fun _ => Except.ok [], Except.ok [],
   fun n => Except.ok ("C-" ++ n), Except.ok [], fun n => Except.ok ("V-" ++ n),
   fun _ => Except.ok none, fun _ => true, fun _ _ => true⟩

def liveCfg : CUConfig := ⟨false, none, true, none, "customfield_10014", "F22E"⟩

def dryCfg : CUConfig := ⟨true, none, true, none, "customfield_10014", "F22E"⟩

/-- Tracker whose summary search raises (network failure). -/
def searchFailTrk : Tracker :=
  ⟨Except.ok "P1", fun _ => Except.error (), Except.ok [],
   fun n => Except.ok ("C-" ++ n), Except.ok [], fun n => Except.ok ("V-" ++ n),
   fun _ => Except.ok none, fun _ => true, fun _ _ => true⟩

/-- Tracker where every issue update fails with an error status. -/
def updateFailTrk : Tracker :=
  ⟨Except.ok "P1", fun _ => Except.ok [], Except.ok [],
   fun n => Except.ok ("C-" ++ n), Except.ok [], fun n => Except.ok ("V-" ++ n),
   fun _ => Except.ok none, fun _ => false, fun _ _ => true⟩

def c9Cfg : CUConfig := ⟨false, some 1, true, none, "customfield_10014", "F22E"⟩

def c9Rows : List Row :=
  [mkRow none (some "NoSuch") none none, mkRow (some "K-2") none none none]

def c1Rows : List Row :=
  [mkRow (some "K-1") none none (some "D-1"), mkRow (some "K-2") none none none]

def deckRows : List Row :=
  [mkRow (some "T-1") none (some "Deck") none, mkRow (some "T-2") none (some "Deck") none]

def impLiveCfg : ImpConfig := ⟨false, true, "F22E"⟩

def okImpTrk : ImpTracker := ⟨Except.ok [], fun n => some ("T-" ++ toString n)⟩

def taskRowA : ImpRow := ⟨"A", "", "Task", none, none, none⟩

def subRowDesign : ImpRow := ⟨"Design", "", "Sub-task", none, none, none⟩

/-- All remote responses succeed (update/link outcomes unconstrained). -/
def trkGood (trk : Tracker) : Prop :=
  exOk trk.projectResp = true ∧ (∀ q, exOk (trk.searchResp q) = true) ∧
  exOk trk.componentsResp = true ∧ (∀ n, exOk (trk.createComponentResp n) = true) ∧
  exOk trk.versionsResp = true ∧ (∀ n, exOk (trk.createVersionResp n) = true) ∧
  ∀ e, exOk (trk.userResp e) = true

/-- The only calls `build_fields` can issue. -/
def isCompOrVersion : Call → Bool
  | Call.createComponent _ _ => true
  | Call.createVersion _ _ => true
  | _ => false

def isCreateIssueCall : Call → Bool
  | Call.createIssue _ _ _ => true
  | _ => false

/-! ## Theorems -/

/-! ### Digit and date rendering lemmas -/

theorem digitChar_cases (n : Nat) :
    (digitChar n).isDigit = true ∧ digitVal (digitChar n) = n % 10 ∧
    pyIsSpace (digitChar n) = false ∧ ¬ digitChar n = '-' ∧
    pyToLower (digitChar n) = digitChar n := by
  have h : n % 10 < 10 := Nat.mod_lt _ (by omega)
  simp only [digitChar]
  generalize hk : n % 10 = k at h ⊢
  interval_cases k <;> decide

theorem digitChar_isDigit (n : Nat) : (digitChar n).isDigit = true := (digitChar_cases n).1

theorem digitVal_digitChar (n : Nat) : digitVal (digitChar n) = n % 10 := (digitChar_cases n).2.1

theorem pyIsSpace_digitChar (n : Nat) : pyIsSpace (digitChar n) = false :=
  (digitChar_cases n).2.2.1

theorem digitChar_ne_dash (n : Nat) : ¬ digitChar n = '-' := (digitChar_cases n).2.2.2.1

theorem parseNum_pad4 (y : Nat) (h : y < 10000) : parseNum (pad4 y) 4 4 = some y := by
  simp [parseNum, pad4, allDigits, digitChar_isDigit, digitsVal, digitVal_digitChar]
  omega

theorem parseNum_pad2 (n : Nat) (h : n < 100) : parseNum (pad2 n) 1 2 = some n := by
  simp [parseNum, pad2, allDigits, digitChar_isDigit, digitsVal, digitVal_digitChar]
  omega

theorem daysInMonth_le (y m : Nat) : daysInMonth y m ≤ 31 := by
  unfold daysInMonth
  split_ifs <;> omega

theorem splitSep3_formatDate (y m d : Nat) :
    splitSep3 '-' (formatDate y m d) = some (pad4 y, pad2 m, pad2 d) := by
  simp [splitSep3, breakSep, formatDate, pad4, pad2, digitChar_ne_dash]

theorem validDate_bounds {y m d : Nat} (h : validDate y m d = true) :
    1 ≤ y ∧ y ≤ 9999 ∧ 1 ≤ m ∧ m ≤ 12 ∧ 1 ≤ d ∧ d ≤ daysInMonth y m := by
  simp only [validDate, Bool.and_eq_true, decide_eq_true_eq] at h
  tauto

theorem parseYMD_formatDate (y m d : Nat) (h : validDate y m d = true) :
    parseYMDsep '-' (formatDate y m d) = some (y, m, d) := by
  obtain ⟨h1, h2, h3, h4, h5, h6⟩ := validDate_bounds h
  have hd31 := daysInMonth_le y m
  unfold parseYMDsep
  rw [splitSep3_formatDate]
  dsimp only
  rw [parseNum_pad4 y (by omega), parseNum_pad2 m (by omega), parseNum_pad2 d (by omega)]
  simp [checkDate, h]

theorem checkDate_valid {y m d : Nat} {v : Nat × Nat × Nat} (h : checkDate y m d = some v) :
    v = (y, m, d) ∧ validDate y m d = true := by
  unfold checkDate at h
  split at h
  · exact ⟨(Option.some.inj h).symm, by assumption⟩
  · exact absurd h (by simp)

theorem parseYMDsep_valid {sep : Char} {cs : List Char} {v : Nat × Nat × Nat}
    (h : parseYMDsep sep cs = some v) : validDate v.1 v.2.1 v.2.2 = true := by
  unfold parseYMDsep at h
  split at h
  · exact absurd h (by simp)
  · split at h
    · obtain ⟨rfl, hv⟩ := checkDate_valid h
      exact hv
    · exact absurd h (by simp)

theorem parseDMYsep_valid {sep : Char} {cs : List Char} {v : Nat × Nat × Nat}
    (h : parseDMYsep sep cs = some v) : validDate v.1 v.2.1 v.2.2 = true := by
  unfold parseDMYsep at h
  split at h
  · exact absurd h (by simp)
  · split at h
    · obtain ⟨rfl, hv⟩ := checkDate_valid h
      exact hv
    · exact absurd h (by simp)

theorem parseMDYsep_valid {sep : Char} {cs : List Char} {v : Nat × Nat × Nat}
    (h : parseMDYsep sep cs = some v) : validDate v.1 v.2.1 v.2.2 = true := by
  unfold parseMDYsep at h
  split at h
  · exact absurd h (by simp)
  · split at h
    · obtain ⟨rfl, hv⟩ := checkDate_valid h
      exact hv
    · exact absurd h (by simp)

theorem parseDMonY_valid {tbl : List (List Char)} {cs : List Char} {v : Nat × Nat × Nat}
    (h : parseDMonY tbl cs = some v) : validDate v.1 v.2.1 v.2.2 = true := by
  unfold parseDMonY at h
  split at h
  · split at h
    · obtain ⟨rfl, hv⟩ := checkDate_valid h
      exact hv
    · exact absurd h (by simp)
  · exact absurd h (by simp)

theorem parseMonDY_valid {tbl : List (List Char)} {cs : List Char} {v : Nat × Nat × Nat}
    (h : parseMonDY tbl cs = some v) : validDate v.1 v.2.1 v.2.2 = true := by
  unfold parseMonDY at h
  split at h
  · split at h
    · obtain ⟨rfl, hv⟩ := checkDate_valid h
      exact hv
    · exact absurd h (by simp)
  · exact absurd h (by simp)

theorem parseIsoDate_valid {cs : List Char} {v : Nat × Nat × Nat}
    (h : parseIsoDate cs = some v) : validDate v.1 v.2.1 v.2.2 = true := by
  unfold parseIsoDate at h
  split at h
  · split at h
    · obtain ⟨rfl, hv⟩ := checkDate_valid h
      exact hv
    · exact absurd h (by simp)
  · exact absurd h (by simp)

theorem tryFormats_valid {cs : List Char} {v : Nat × Nat × Nat} :
    ∀ fs, (∀ f ∈ fs, ∀ cs2 v2, f cs2 = some v2 → validDate v2.1 v2.2.1 v2.2.2 = true) →
      tryFormats fs cs = some v → validDate v.1 v.2.1 v.2.2 = true
  | [], _, h2 => absurd h2 (by simp [tryFormats])
  | f :: fs, h, h2 => by
    unfold tryFormats at h2
    split at h2
    · cases h2
      exact h f (by simp) _ _ (by assumption)
    · exact tryFormats_valid fs (fun g hg => h g (by simp [hg])) h2

theorem dateFormats_valid :
    ∀ f ∈ dateFormats, ∀ cs v, f cs = some v → validDate v.1 v.2.1 v.2.2 = true := by
  intro f hf
  simp only [dateFormats, List.mem_cons, List.not_mem_nil, or_false] at hf
  rcases hf with rfl | rfl | rfl | rfl | rfl | rfl | rfl | rfl | rfl | rfl <;> intro cs v h
  · exact parseYMDsep_valid h
  · exact parseDMYsep_valid h
  · exact parseDMYsep_valid h
  · exact parseMDYsep_valid h
  · exact parseMDYsep_valid h
  · exact parseDMonY_valid h
  · exact parseDMonY_valid h
  · exact parseMonDY_valid h
  · exact parseMonDY_valid h
  · exact parseYMDsep_valid h

theorem normalize_shape {cs r : List Char} (h : normalize_date cs = some r) :
    ∃ y m d, validDate y m d = true ∧ r = formatDate y m d := by
  unfold normalize_date at h
  split at h
  · exact absurd h (by simp)
  · split at h
    next y m d heq =>
      cases h
      exact ⟨y, m, d, tryFormats_valid dateFormats dateFormats_valid heq, rfl⟩
    next heq =>
      split at h
      next y m d hiso =>
        cases h
        exact ⟨y, m, d, parseIsoDate_valid hiso, rfl⟩
      next => exact absurd h (by simp)

theorem pyStrip_formatDate (y m d : Nat) : pyStrip (formatDate y m d) = formatDate y m d := by
  simp [pyStrip, formatDate, pad4, pad2, List.dropWhile, pyIsSpace_digitChar,
    show pyIsSpace '-' = false from rfl]

theorem formatDate_not_sentinel (y m d : Nat) :
    ¬ (pyStrip (formatDate y m d) = [] ∨
        pyLower (pyStrip (formatDate y m d)) ∈ sentinelWords) := by
  rw [pyStrip_formatDate]
  intro hc
  rcases hc with hc | hc
  · exact absurd hc (by simp [formatDate, pad4, pad2])
  · simp [sentinelWords, formatDate, pad4, pad2, pyLower] at hc

theorem normalize_idem {cs r : List Char} (h : normalize_date cs = some r) :
    normalize_date r = some r := by
  obtain ⟨y, m, d, hv, rfl⟩ := normalize_shape h
  unfold normalize_date
  rw [if_neg (formatDate_not_sentinel y m d)]
  have h1 : tryFormats dateFormats (pyStrip (formatDate y m d)) = some (y, m, d) := by
    rw [pyStrip_formatDate]
    simp [dateFormats, tryFormats, parseYMD_formatDate y m d hv]
  rw [h1]

theorem isYmdShape_formatDate (y m d : Nat) : isYmdShape (formatDate y m d) = true := by
  simp [isYmdShape, formatDate, pad4, pad2, allDigits, digitChar_isDigit]

/-- Claim C6: `normalize_date` is idempotent on its defined outputs, its
output always matches `yyyy-mm-dd` (or is absent), and empty/`nan`/`none`/
`null` inputs (case-insensitive, after trimming) normalize to absent. -/
theorem c6_normalize_date (s r : List Char) :
    (normalize_date s = some r → normalize_date r = some r) ∧
    (normalize_date s = some r → isYmdShape r = true) ∧
    (pyStrip s = [] ∨ pyLower (pyStrip s) ∈ sentinelWords → normalize_date s = none) := by
  refine ⟨fun h => normalize_idem h, fun h => ?_, fun h => ?_⟩
  · obtain ⟨y, m, d, _, rfl⟩ := normalize_shape h
    exact isYmdShape_formatDate y m d
  · unfold normalize_date
    rw [if_pos h]

/-- Witness for C6 at concrete inputs. -/
theorem c6_normalize_date_witness :
    normalize_date ("3 Jan 2025".data) = some ("2025-01-03".data) ∧
    normalize_date ("2025-01-03".data) = some ("2025-01-03".data) ∧
    isYmdShape ("2025-01-03".data) = true ∧
    normalize_date (" NaN ".data) = none := by
  refine ⟨by decide, (c6_normalize_date "3 Jan 2025".data "2025-01-03".data).1 (by decide),
    (c6_normalize_date "3 Jan 2025".data "2025-01-03".data).2.1 (by decide),
    (c6_normalize_date " NaN ".data []).2.2 (Or.inr (by decide))⟩

/-! ### C2: summary resolver -/

theorem firstExact_eq_filterHead (q : String) : ∀ issues : List JIssue,
    firstExact q issues = (issues.filter (ciMatch q)).head?
  | [] => rfl
  | it :: rest => by
    by_cases h : ciMatch q it
    · simp [firstExact, List.filter_cons, h]
    · simp [firstExact, List.filter_cons, h, firstExact_eq_filterHead q rest]

/-- Claim C2: for a non-empty search result set the resolver picks the
first exact case-insensitive (trimmed) summary match wherever it sits;
with no exact match it falls back to the first result; an empty set gives
`none` (Skip); and the requested result set is bounded to 5. -/
theorem c2_resolver (q : String) (issues : List JIssue) :
    (issues = [] → search_issue_by_summary q issues = none) ∧
    (∀ it, (issues.filter (ciMatch q)).head? = some it →
      search_issue_by_summary q issues = some it.key) ∧
    (issues.filter (ciMatch q) = [] →
      search_issue_by_summary q issues = issues.head?.map JIssue.key) ∧
    search_maxResults = 5 := by
  refine ⟨fun h => by subst h; rfl, fun it h => ?_, fun h => ?_, rfl⟩
  · unfold search_issue_by_summary
    rw [firstExact_eq_filterHead, h]
  · unfold search_issue_by_summary
    rw [firstExact_eq_filterHead, h]
    cases issues <;> rfl

/-- Witness for C2: an exact (case-insensitive, trimmed) match in second
position is selected over the first result. -/
theorem c2_resolver_witness :
    search_issue_by_summary "Bridge" [⟨"K-1", "Alpha"⟩, ⟨"K-2", " bridge "⟩] = some "K-2" :=
  (c2_resolver "Bridge" [⟨"K-1", "Alpha"⟩, ⟨"K-2", " bridge "⟩]).2.1 ⟨"K-2", " bridge "⟩
    (by decide)

/-! ### C8: retry policy -/

/-- C8 counterexample: a link-creation POST that hits a transient
connection failure is retried (two attempts) and then succeeds, so link
creation does not fail fast on its first failure. -/
theorem c8_counterexample :
    (link_issue_post transientThenOk).1 = 2 ∧
    (link_issue_post transientThenOk).2 = Except.ok 201 := ⟨rfl, rfl⟩

/-- Claim C8 (amended): every POST routed through the importer's
`jira_post` — issue creation AND link creation alike — performs at most
`MAX_RETRIES + 1` attempts, returns after a single attempt whenever the
first attempt yields an HTTP status, and performs exactly two attempts
after a transient first failure; GET and DELETE always issue exactly one
request. -/
theorem c8_retry_policy (resp : Nat → PostAttempt) (r : PostAttempt) :
    (jira_post resp).1 ≤ MAX_RETRIES + 1 ∧
    (∀ c, resp 0 = PostAttempt.status c → jira_post resp = (1, Except.ok c)) ∧
    (resp 0 = PostAttempt.exc → (jira_post resp).1 = 2) ∧
    (jira_get r).1 = 1 ∧ (jira_delete r).1 = 1 := by
  refine ⟨?_, ?_, ?_, by cases r <;> rfl, by cases r <;> rfl⟩
  · unfold jira_post MAX_RETRIES
    rcases h0 : resp 0 with _ | c
    · rcases h1 : resp 1 with _ | c <;> simp [postAttempts, h0, h1, MAX_RETRIES]
    · simp [postAttempts, h0]
  · intro c h
    unfold jira_post MAX_RETRIES
    simp [postAttempts, h]
  · intro h
    unfold jira_post MAX_RETRIES
    rcases h1 : resp 1 with _ | c <;> simp [postAttempts, h, h1, MAX_RETRIES]

/-- Witness for C8: a first-attempt HTTP status returns immediately. -/
theorem c8_retry_policy_witness :
    jira_post (fun _ => PostAttempt.status 200) = (1, Except.ok 200) :=
  (c8_retry_policy (fun _ => PostAttempt.status 200) PostAttempt.exc).2.1 200 rfl

/-! ### C1: two-phase linking -/

theorem linksAfterPrimaries_of_no_primary (t : List Call)
    (h : ∀ e ∈ t, isPrimaryCall e = false) : linksAfterPrimaries t = true := by
  induction t with
  | nil => rfl
  | cons c rest ih =>
    simp only [linksAfterPrimaries, Bool.and_eq_true, Bool.or_eq_true]
    refine ⟨Or.inr ?_, ih fun e he => h e (by simp [he])⟩
    simp only [List.all_eq_true]
    intro e he
    simp [h e (by simp [he])]

theorem linksAfterPrimaries_of_split (t1 t2 : List Call)
    (h1 : ∀ e ∈ t1, isCreateLink e = false) (h2 : ∀ e ∈ t2, isPrimaryCall e = false) :
    linksAfterPrimaries (t1 ++ t2) = true := by
  induction t1 with
  | nil => simpa using linksAfterPrimaries_of_no_primary t2 h2
  | cons c rest ih =>
    simp only [List.cons_append, linksAfterPrimaries, Bool.and_eq_true, Bool.or_eq_true]
    refine ⟨Or.inl ?_, ih fun e he => h1 e (by simp [he])⟩
    simp [h1 c (by simp)]

theorem imp_create_issue_no_link (cfg : ImpConfig) (trk : ImpTracker) (st : ImpState)
    (s : String) (p : Option String) :
    ∀ e ∈ (imp_create_issue cfg trk st s p).1, isCreateLink e = false := by
  unfold imp_create_issue
  split
  · simp
  · split <;> simp [isCreateLink]

theorem impTaskRow_trace (cfg : ImpConfig) (trk : ImpTracker) (row : ImpRow) (st : ImpState) :
    (impTaskRow cfg trk row st).1 = (imp_create_issue cfg trk st row.summary none).1 := by
  unfold impTaskRow
  rcases h : imp_create_issue cfg trk st row.summary none with ⟨t, k, cnt⟩
  cases k <;> simp

theorem impSubRow_trace (cfg : ImpConfig) (trk : ImpTracker) (row : ImpRow) (st : ImpState)
    (cp pk : String) :
    (impSubRow cfg trk row st cp pk).1 = (imp_create_issue cfg trk st row.summary (some pk)).1 := by
  unfold impSubRow
  rcases h : imp_create_issue cfg trk st row.summary (some pk) with ⟨t, k, cnt⟩
  cases k with
  | none => simp
  | some k =>
    dsimp only
    split
    · rfl
    · split <;> rfl

theorem impRow_no_link (cfg : ImpConfig) (trk : ImpTracker) (row : ImpRow) (st : ImpState) :
    ∀ e ∈ (impRow cfg trk row st).1, isCreateLink e = false := by
  unfold impRow
  split
  · rw [impTaskRow_trace]
    exact imp_create_issue_no_link cfg trk st row.summary none
  · split
    · split
      · simp
      · split
        · simp
        · split
          · simp
          next pk _ =>
            rw [impSubRow_trace]
            exact imp_create_issue_no_link cfg trk st row.summary (some pk)
    · simp

theorem impLoop_no_link (cfg : ImpConfig) (trk : ImpTracker) :
    ∀ (rows : List ImpRow) (st : ImpState),
      ∀ e ∈ (impLoop cfg trk rows st).1, isCreateLink e = false := by
  intro rows
  induction rows with
  | nil => intro st e he; simp [impLoop] at he
  | cons row rest ih =>
    intro st e he
    unfold impLoop at he
    rcases hr : impRow cfg trk row st with ⟨t, er⟩
    rw [hr] at he
    have hrow := impRow_no_link cfg trk row st
    rw [hr] at hrow
    cases er with
    | error e2 => exact hrow e he
    | ok st1 =>
      dsimp only at he
      rcases hl : impLoop cfg trk rest st1 with ⟨t2, r2⟩
      rw [hl] at he
      simp only [List.mem_append] at he
      rcases he with he | he
      · exact hrow e he
      · have := ih st1 e
        rw [hl] at this
        exact this he

theorem linkPhase_only_links (cfg : ImpConfig) :
    ∀ pls : List (String × String), ∀ e ∈ linkPhase cfg pls, isPrimaryCall e = false := by
  intro pls
  induction pls with
  | nil => intro e he; simp [linkPhase] at he
  | cons p rest ih =>
    intro e he
    rcases p with ⟨a, b⟩
    unfold linkPhase at he
    simp only [List.mem_append] at he
    rcases he with he | he
    · split at he
      · simp at he
      · simp only [List.mem_singleton] at he
        subst he
        rfl
    · exact ih e he

theorem wipePhase_no_link_no_primary (cfg : ImpConfig) (trk : ImpTracker) :
    ∀ e ∈ (wipePhase cfg trk).1, isCreateLink e = false ∧ isPrimaryCall e = false := by
  unfold wipePhase
  split
  · simp
  · split
    · simp
    · intro e he
      split at he
      · simp at he
      · simp only [List.mem_map] at he
        obtain ⟨k, _, rfl⟩ := he
        exact ⟨rfl, rfl⟩

/-- Claim C1 (amended): the Importer run is two-phase — every dependency
link call is submitted only after all issue create calls of the batch; no
primary (create/update) call ever follows a link call in its trace. -/
theorem c1_importer_two_phase (cfg : ImpConfig) (trk : ImpTracker) (rows : List ImpRow) :
    linksAfterPrimaries (impMain cfg trk rows).1 = true := by
  unfold impMain
  rcases hw : wipePhase cfg trk with ⟨tw, ew⟩
  have hwf := wipePhase_no_link_no_primary cfg trk
  rw [hw] at hwf
  cases ew with
  | error e =>
    have := linksAfterPrimaries_of_split tw [] (fun e he => (hwf e he).1) (by simp)
    simpa using this
  | ok u =>
    rcases hl : impLoop cfg trk rows impInit with ⟨tl, el⟩
    have hlf := impLoop_no_link cfg trk rows impInit
    rw [hl] at hlf
    cases el with
    | error e =>
      have : linksAfterPrimaries ((tw ++ tl) ++ []) = true := by
        refine linksAfterPrimaries_of_split (tw ++ tl) [] ?_ (by simp)
        intro e he
        simp only [List.mem_append] at he
        rcases he with he | he
        · exact (hwf e he).1
        · exact hlf e he
      simpa using this
    | ok st =>
      dsimp only
      rw [show tw ++ tl ++ linkPhase cfg st.pendingLinks = (tw ++ tl) ++ linkPhase cfg st.pendingLinks from by
        simp]
      refine linksAfterPrimaries_of_split (tw ++ tl) (linkPhase cfg st.pendingLinks) ?_
        (linkPhase_only_links cfg st.pendingLinks)
      intro e he
      simp only [List.mem_append] at he
      rcases he with he | he
      · exact (hwf e he).1
      · exact hlf e he

/-- C1 counterexample: in a live ColumnUpdater run, row 1's dependency
link is created before row 2's update is even attempted — the claimed
batch-wide ordering invariant fails for this pipeline. -/
theorem c1_counterexample :
    (cuMain liveCfg okTrk c1Rows).1 =
      [Call.updateIssue "K-1", Call.createLink "K-1" "D-1", Call.updateIssue "K-2"] ∧
    linksAfterPrimaries (cuMain liveCfg okTrk c1Rows).1 = false := ⟨rfl, rfl⟩

/-! ### C3: dry-run purity -/

/-- Claim C3 (code bug): with the dry-run flag set, a row whose
Components cell names a component absent from the project still issues a
mutating component-create POST — the dry-run trace is not empty. -/
theorem c3_dry_run_mutates :
    dryCfg.dryRun = true ∧
    (cuMain dryCfg okTrk [mkRow (some "T-1") none (some "Deck") none]).1 =
      [Call.createComponent "P1" "Deck"] := ⟨rfl, rfl⟩

/-! ### C4: per-row error isolation -/

theorem resolveComponents_ok (trk : Tracker) (pid : String)
    (hcc : ∀ n, exOk (trk.createComponentResp n) = true) :
    ∀ (names : List String) (m : List (String × String)),
      exOk (resolveComponents trk pid names m).2 = true := by
  intro names
  induction names with
  | nil => intro m; rfl
  | cons n rest ih =>
    intro m
    unfold resolveComponents
    split
    · split
      next t e hr =>
        have h2 := ih m
        rw [hr] at h2
        simp [exOk] at h2
      next t ids m2 hr => rfl
    · split
      next e hc =>
        have h2 := hcc n
        rw [hc] at h2
        simp [exOk] at h2
      next cid hc =>
        split
        next t e hr =>
          have h2 := ih ((pyLowerS n, cid) :: m)
          rw [hr] at h2
          simp [exOk] at h2
        next t ids m2 hr => rfl

theorem get_or_create_version_ok (trk : Tracker) (pid : String) (st : CUState) (name : String)
    (hv : exOk trk.versionsResp = true) (hcv : ∀ n, exOk (trk.createVersionResp n) = true) :
    exOk (get_or_create_version trk pid st name).2 = true := by
  unfold get_or_create_version
  split
  · rfl
  · split
    next e hr => rw [hr] at hv; simp [exOk] at hv
    next remote hr =>
      split
      · rfl
      · split
        next e hc =>
          have h2 := hcv name
          rw [hc] at h2
          simp [exOk] at h2
        next vid hc => rfl

theorem resolveVersions_ok (trk : Tracker) (pid : String)
    (hv : exOk trk.versionsResp = true) (hcv : ∀ n, exOk (trk.createVersionResp n) = true) :
    ∀ (names : List String) (st : CUState),
      exOk (resolveVersions trk pid names st).2 = true := by
  intro names
  induction names with
  | nil => intro st; rfl
  | cons n rest ih =>
    intro st
    unfold resolveVersions
    split
    next t e hr =>
      have h2 := get_or_create_version_ok trk pid st n hv hcv
      rw [hr] at h2
      simp [exOk] at h2
    next t vid st2 hr =>
      split
      next t2 e hl =>
        have h2 := ih st2
        rw [hl] at h2
        simp [exOk] at h2
      next t2 ids st3 hl => rfl

theorem resolve_user_ok (trk : Tracker) (st : CUState) (email : String)
    (hu : ∀ e, exOk (trk.userResp e) = true) :
    exOk (resolve_user trk st email).2 = true := by
  unfold resolve_user
  split
  · rfl
  · split
    next e hr =>
      have h2 := hu email
      rw [hr] at h2
      simp [exOk] at h2
    next acct hr => rfl

theorem getComponentsMap_ok (trk : Tracker) (st : CUState)
    (hc : exOk trk.componentsResp = true) :
    exOk (getComponentsMap trk st).2 = true := by
  unfold getComponentsMap
  split
  · rfl
  · split
    next e hr => rw [hr] at hc; simp [exOk] at hc
    next comps hr => rfl

theorem bfComponents_ok (trk : Tracker) (pid : String) (row : Row) (st : CUState)
    (hc : exOk trk.componentsResp = true)
    (hcc : ∀ n, exOk (trk.createComponentResp n) = true) :
    exOk (bfComponents trk pid row st).2 = true := by
  unfold bfComponents
  split
  · split
    next t e hr =>
      have h2 := getComponentsMap_ok trk st hc
      rw [hr] at h2
      simp [exOk] at h2
    next t m st1 hr =>
      split
      next t2 e hr2 =>
        have h2 := resolveComponents_ok trk pid hcc (pySplitTrim (presVal row.components)) m
        rw [hr2] at h2
        simp [exOk] at h2
      next t2 ids m2 hr2 => rfl
  · rfl

theorem bfVersions_ok (trk : Tracker) (pid : String) (row : Row) (st : CUState)
    (hv : exOk trk.versionsResp = true) (hcv : ∀ n, exOk (trk.createVersionResp n) = true) :
    exOk (bfVersions trk pid row st).2 = true := by
  unfold bfVersions
  split
  · split
    next t e hr =>
      have h2 := resolveVersions_ok trk pid hv hcv (pySplitTrim (presVal row.fixVersions)) st
      rw [hr] at h2
      simp [exOk] at h2
    next t ids st1 hr => rfl
  · rfl

theorem bfAssignee_ok (trk : Tracker) (row : Row) (st : CUState)
    (hu : ∀ e, exOk (trk.userResp e) = true) :
    exOk (bfAssignee trk row st).2 = true := by
  unfold bfAssignee
  split
  · split
    next t e hr =>
      have h2 := resolve_user_ok trk st (pyStripS (presVal row.assigneeEmail)) hu
      rw [hr] at h2
      simp [exOk] at h2
    next t acct st1 hr => rfl
    next t st1 hr => rfl
  · rfl

theorem build_fields_ok (cfg : CUConfig) (trk : Tracker) (pid : String) (row : Row)
    (st : CUState) (hc : exOk trk.componentsResp = true)
    (hcc : ∀ n, exOk (trk.createComponentResp n) = true)
    (hv : exOk trk.versionsResp = true)
    (hcv : ∀ n, exOk (trk.createVersionResp n) = true)
    (hu : ∀ e, exOk (trk.userResp e) = true) :
    exOk (build_fields cfg trk pid row st).2 = true := by
  unfold build_fields
  rcases hr : bfComponents trk pid row st with ⟨t, er⟩
  cases er with
  | error e =>
    have h2 := bfComponents_ok trk pid row st hc hcc
    rw [hr] at h2
    simp [exOk] at h2
  | ok p =>
    rcases p with ⟨fc, st1⟩
    dsimp only
    rcases hr2 : bfVersions trk pid row st1 with ⟨t2, er2⟩
    cases er2 with
    | error e =>
      have h2 := bfVersions_ok trk pid row st1 hv hcv
      rw [hr2] at h2
      simp [exOk] at h2
    | ok p2 =>
      rcases p2 with ⟨fv, st2⟩
      dsimp only
      rcases hr3 : bfAssignee trk row st2 with ⟨t3, er3⟩
      cases er3 with
      | error e =>
        have h2 := bfAssignee_ok trk row st2 hu
        rw [hr3] at h2
        simp [exOk] at h2
      | ok p3 =>
        rcases p3 with ⟨fa, st3⟩
        rfl

theorem cuRowWithKey_ok (cfg : CUConfig) (trk : Tracker) (pid : String) (row : Row)
    (st : CUState) (key : String)
    (hb : exOk (build_fields cfg trk pid row st).2 = true) :
    exOk (cuRowWithKey cfg trk pid row st key).2 = true := by
  unfold cuRowWithKey
  split
  next t e hr => rw [hr] at hb; simp [exOk] at hb
  next t fields st1 hr => rfl

theorem cuRow_ok (cfg : CUConfig) (trk : Tracker) (pid : String) (row : Row) (st : CUState)
    (hg : trkGood trk) : exOk (cuRow cfg trk pid row st).2 = true := by
  obtain ⟨hp, hs, hc, hcc, hv, hcv, hu⟩ := hg
  unfold cuRow
  dsimp only
  split
  · split
    · rfl
    · split
      next e hr =>
        have h2 := hs (pyStripS (presVal row.summary))
        rw [hr] at h2
        simp [exOk] at h2
      next issues hr =>
        split
        · rfl
        next k hk =>
          exact cuRowWithKey_ok cfg trk pid row st k
            (build_fields_ok cfg trk pid row st hc hcc hv hcv hu)
  · exact cuRowWithKey_ok cfg trk pid row st (pyStripS (presVal row.issueKey))
      (build_fields_ok cfg trk pid row st hc hcc hv hcv hu)

theorem cuLoop_ok (cfg : CUConfig) (trk : Tracker) (pid : String) (hg : trkGood trk) :
    ∀ (rows : List Row) (st : CUState), exOk (cuLoop cfg trk pid rows st).2 = true := by
  intro rows
  induction rows with
  | nil => intro st; rfl
  | cons row rest ih =>
    intro st
    unfold cuLoop
    split
    · rfl
    · split
      next t e hr =>
        have h2 := cuRow_ok cfg trk pid row st hg
        rw [hr] at h2
        simp [exOk] at h2
      next t st1 hr =>
        split
        next t2 r hl =>
          have h2 := ih st1
          rw [hl] at h2
          simpa [exOk] using h2

/-- Claim C4 (amended): only the update call and each link call are
guarded per row — as long as searches, project/component/version/user
lookups and entity creations succeed, a run completes (`Except.ok`)
regardless of how many updates or link creations fail. -/
theorem c4_row_isolation (cfg : CUConfig) (trk : Tracker) (rows : List Row)
    (hg : trkGood trk) : exOk (cuMain cfg trk rows).2 = true := by
  unfold cuMain
  split
  next e hr =>
    have h2 := hg.1
    rw [hr] at h2
    simp [exOk] at h2
  next pid hr => exact cuLoop_ok cfg trk pid hg rows initState

/-- Witness for C4: a run in which every update and link call fails still
completes. -/
theorem c4_row_isolation_witness :
    exOk (cuMain liveCfg updateFailTrk
      [mkRow (some "K-1") none none (some "D-1"), mkRow (some "K-2") none none none]).2 = true :=
  c4_row_isolation liveCfg updateFailTrk
    [mkRow (some "K-1") none none (some "D-1"), mkRow (some "K-2") none none none]
    ⟨rfl, fun _ => rfl, rfl, fun _ => rfl, rfl, fun _ => rfl, fun _ => rfl⟩

/-- C4 counterexample: a remote failure during a row's summary search is
NOT caught — it aborts the whole run before the second row is processed
(the trace is empty and the outcome is an error). -/
theorem c4_counterexample :
    exOk (cuMain liveCfg searchFailTrk
      [mkRow none (some "Alpha") none none, mkRow (some "K-2") none none none]).2 = false ∧
    (cuMain liveCfg searchFailTrk
      [mkRow none (some "Alpha") none none, mkRow (some "K-2") none none none]).1 = [] :=
  ⟨rfl, rfl⟩

/-! ### C5: trace shape of build_fields and the dependency loop -/

theorem resolve_user_trace (trk : Tracker) (st : CUState) (email : String) :
    (resolve_user trk st email).1 = [] := by
  unfold resolve_user
  split
  · rfl
  · split <;> rfl

theorem bfAssignee_trace (trk : Tracker) (row : Row) (st : CUState) :
    (bfAssignee trk row st).1 = [] := by
  unfold bfAssignee
  split
  · rcases hr : resolve_user trk st (pyStripS (presVal row.assigneeEmail)) with ⟨t, er⟩
    have ht := resolve_user_trace trk st (pyStripS (presVal row.assigneeEmail))
    rw [hr] at ht
    cases er with
    | error e => exact ht
    | ok p =>
      rcases p with ⟨acct, st1⟩
      cases acct <;> exact ht
  · rfl

theorem resolveComponents_events (trk : Tracker) (pid : String) :
    ∀ (names : List String) (m : List (String × String)),
      ∀ e ∈ (resolveComponents trk pid names m).1, ∃ n, e = Call.createComponent pid n := by
  intro names
  induction names with
  | nil => intro m e he; simp [resolveComponents] at he
  | cons n rest ih =>
    intro m e he
    unfold resolveComponents at he
    split at he
    · split at he
      next t e2 hr =>
        have h2 := ih m e
        rw [hr] at h2
        exact h2 he
      next t ids m2 hr =>
        have h2 := ih m e
        rw [hr] at h2
        exact h2 he
    · split at he
      next e2 hc => simp at he; exact ⟨n, he⟩
      next cid hc =>
        split at he
        next t e2 hr =>
          simp only [List.mem_cons] at he
          rcases he with rfl | he
          · exact ⟨n, rfl⟩
          · have h2 := ih ((pyLowerS n, cid) :: m) e
            rw [hr] at h2
            exact h2 he
        next t ids m2 hr =>
          simp only [List.mem_cons] at he
          rcases he with rfl | he
          · exact ⟨n, rfl⟩
          · have h2 := ih ((pyLowerS n, cid) :: m) e
            rw [hr] at h2
            exact h2 he

theorem get_or_create_version_events (trk : Tracker) (pid : String) (st : CUState)
    (name : String) :
    ∀ e ∈ (get_or_create_version trk pid st name).1, ∃ n, e = Call.createVersion pid n := by
  unfold get_or_create_version
  split
  · simp
  · split
    · simp
    · split
      · simp
      · split
        next e2 hc => intro e he; simp at he; exact ⟨name, he⟩
        next vid hc => intro e he; simp at he; exact ⟨name, he⟩

theorem resolveVersions_events (trk : Tracker) (pid : String) :
    ∀ (names : List String) (st : CUState),
      ∀ e ∈ (resolveVersions trk pid names st).1, ∃ n, e = Call.createVersion pid n := by
  intro names
  induction names with
  | nil => intro st e he; simp [resolveVersions] at he
  | cons n rest ih =>
    intro st e he
    unfold resolveVersions at he
    split at he
    next t e2 hr =>
      have h2 := get_or_create_version_events trk pid st n e
      rw [hr] at h2
      exact h2 he
    next t vid st2 hr =>
      split at he
      next t2 e2 hl =>
        simp only [List.mem_append] at he
        rcases he with he | he
        · have h2 := get_or_create_version_events trk pid st n e
          rw [hr] at h2
          exact h2 he
        · have h2 := ih st2 e
          rw [hl] at h2
          exact h2 he
      next t2 ids st3 hl =>
        simp only [List.mem_append] at he
        rcases he with he | he
        · have h2 := get_or_create_version_events trk pid st n e
          rw [hr] at h2
          exact h2 he
        · have h2 := ih st2 e
          rw [hl] at h2
          exact h2 he

theorem bfComponents_events (trk : Tracker) (pid : String) (row : Row) (st : CUState) :
    ∀ e ∈ (bfComponents trk pid row st).1, ∃ n, e = Call.createComponent pid n := by
  unfold bfComponents
  split
  · rcases hm : getComponentsMap trk st with ⟨t, em⟩
    have htm : (getComponentsMap trk st).1 = [] := by
      unfold getComponentsMap
      split
      · rfl
      · split <;> rfl
    rw [hm] at htm
    cases em with
    | error e2 =>
      intro e he
      have ht : t = [] := htm
      subst ht
      simp at he
    | ok p =>
      rcases p with ⟨m, st1⟩
      have ht : t = [] := htm
      subst ht
      dsimp only
      rcases hr : resolveComponents trk pid (pySplitTrim (presVal row.components)) m
        with ⟨t2, er⟩
      have h2 := resolveComponents_events trk pid (pySplitTrim (presVal row.components)) m
      rw [hr] at h2
      cases er with
      | error e2 =>
        intro e he
        dsimp only at he
        simp only [List.nil_append] at he
        exact h2 e he
      | ok p2 =>
        rcases p2 with ⟨ids, m2⟩
        intro e he
        dsimp only at he
        simp only [List.nil_append] at he
        exact h2 e he
  · simp

theorem bfVersions_events (trk : Tracker) (pid : String) (row : Row) (st : CUState) :
    ∀ e ∈ (bfVersions trk pid row st).1, ∃ n, e = Call.createVersion pid n := by
  unfold bfVersions
  split
  · rcases hr : resolveVersions trk pid (pySplitTrim (presVal row.fixVersions)) st with ⟨t, er⟩
    have h2 := resolveVersions_events trk pid (pySplitTrim (presVal row.fixVersions)) st
    rw [hr] at h2
    cases er with
    | error e2 => exact h2
    | ok p =>
      rcases p with ⟨ids, st1⟩
      exact h2
  · simp

theorem build_fields_events (cfg : CUConfig) (trk : Tracker) (pid : String) (row : Row)
    (st : CUState) :
    ∀ e ∈ (build_fields cfg trk pid row st).1,
      (∃ n, e = Call.createComponent pid n) ∨ ∃ n, e = Call.createVersion pid n := by
  unfold build_fields
  rcases hr : bfComponents trk pid row st with ⟨t, er⟩
  have h1 := bfComponents_events trk pid row st
  rw [hr] at h1
  cases er with
  | error e2 => exact fun e he => Or.inl (h1 e he)
  | ok p =>
    rcases p with ⟨fc, st1⟩
    dsimp only
    rcases hr2 : bfVersions trk pid row st1 with ⟨t2, er2⟩
    have h2 := bfVersions_events trk pid row st1
    rw [hr2] at h2
    cases er2 with
    | error e2 =>
      intro e he
      simp only [List.mem_append] at he
      rcases he with he | he
      · exact Or.inl (h1 e he)
      · exact Or.inr (h2 e he)
    | ok p2 =>
      rcases p2 with ⟨fv, st2⟩
      dsimp only
      rcases hr3 : bfAssignee trk row st2 with ⟨t3, er3⟩
      have h3 := bfAssignee_trace trk row st2
      rw [hr3] at h3
      cases er3 with
      | error e2 =>
        intro e he
        simp only [List.mem_append] at he
        rcases he with (he | he) | he
        · exact Or.inl (h1 e he)
        · exact Or.inr (h2 e he)
        · have ht3 : t3 = [] := h3
          subst ht3
          simp at he
      | ok p3 =>
        rcases p3 with ⟨fa, st3⟩
        intro e he
        simp only [List.mem_append] at he
        rcases he with (he | he) | he
        · exact Or.inl (h1 e he)
        · exact Or.inr (h2 e he)
        · have ht3 : t3 = [] := h3
          subst ht3
          simp at he

theorem build_fields_no_link (cfg : CUConfig) (trk : Tracker) (pid : String) (row : Row)
    (st : CUState) :
    ∀ e ∈ (build_fields cfg trk pid row st).1, isCreateLink e = false := by
  intro e he
  rcases build_fields_events cfg trk pid row st e he with ⟨n, rfl⟩ | ⟨n, rfl⟩ <;> rfl

theorem update_issue_fields_live_trace (trk : Tracker) (key : String) (fields : Fields) :
    (update_issue_fields trk key fields false).1 = [Call.updateIssue key] := by
  by_cases h : trk.updateResp key <;> simp [update_issue_fields, h]

theorem add_issue_link_live_trace (trk : Tracker) (key dep : String) :
    (add_issue_link_is_blocked_by trk key dep false).1 = [Call.createLink key dep] := by
  by_cases h : trk.linkResp key dep <;> simp [add_issue_link_is_blocked_by, h]

theorem processDeps_live_trace (cfg : CUConfig) (trk : Tracker) (key : String)
    (hlive : cfg.dryRun = false) :
    ∀ (deps : List String) (linked : Nat),
      (processDeps cfg trk key deps linked).1 =
        deps.map (fun dep => if cfg.blockedByDirection then Call.createLink key dep
          else Call.createLink dep key) := by
  intro deps
  induction deps with
  | nil => intro linked; rfl
  | cons dep rest ih =>
    intro linked
    unfold processDeps
    by_cases hb : cfg.blockedByDirection <;>
      simp [hb, hlive, add_issue_link_live_trace, ih]

theorem filter_link_map (key : String) (bd : Bool) (deps : List String) :
    (deps.map (fun dep => if bd then Call.createLink key dep
      else Call.createLink dep key)).filter isCreateLink =
    deps.map (fun dep => if bd then Call.createLink key dep else Call.createLink dep key) := by
  induction deps with
  | nil => rfl
  | cons dep rest ih => cases bd <;> simp_all [isCreateLink]

/-- Claim C5 (amended): a row with an explicit key always reaches the
dependency step: the link calls it issues are exactly one per listed
dependency, whatever the update call's outcome (an Errored update does
not exit the row), and the row completes without aborting the batch. -/
theorem c5_links_regardless (cfg : CUConfig) (trk : Tracker) (pid : String) (row : Row)
    (st : CUState) (key : String) (hlive : cfg.dryRun = false)
    (hb : exOk (build_fields cfg trk pid row st).2 = true) :
    ((cuRowWithKey cfg trk pid row st key).1.filter isCreateLink =
      (if strPresent row.dependencies then pySplitTrim (presVal row.dependencies) else []).map
        (fun dep => if cfg.blockedByDirection then Call.createLink key dep
          else Call.createLink dep key)) ∧
    exOk (cuRowWithKey cfg trk pid row st key).2 = true := by
  unfold cuRowWithKey
  rcases hr : build_fields cfg trk pid row st with ⟨t, er⟩
  cases er with
  | error e => rw [hr] at hb; simp [exOk] at hb
  | ok p =>
    rcases p with ⟨fields, st1⟩
    dsimp only
    refine ⟨?_, rfl⟩
    rw [List.filter_append, List.filter_append]
    have h1 : t.filter isCreateLink = [] := by
      rw [List.filter_eq_nil_iff]
      intro e he
      have hz := build_fields_no_link cfg trk pid row st e (by rw [hr]; exact he)
      simp [hz]
    have h2 : (update_issue_fields trk key fields cfg.dryRun).1.filter isCreateLink = [] := by
      rw [hlive, update_issue_fields_live_trace]
      rfl
    rw [h1, h2, processDeps_live_trace cfg trk key hlive, filter_link_map]
    simp

/-- Witness for C5: row with key `K-1`, failing update, one dependency —
the link call is still issued. -/
theorem c5_links_regardless_witness :
    ((cuRowWithKey liveCfg updateFailTrk "P1" (mkRow (some "K-1") none none (some "D-1"))
      initState "K-1").1.filter isCreateLink = [Call.createLink "K-1" "D-1"]) ∧
    exOk (cuRowWithKey liveCfg updateFailTrk "P1" (mkRow (some "K-1") none none (some "D-1"))
      initState "K-1").2 = true := by
  have h := c5_links_regardless liveCfg updateFailTrk "P1"
    (mkRow (some "K-1") none none (some "D-1")) initState "K-1" rfl (by decide)
  exact ⟨h.1.trans (by decide), h.2⟩

/-- C5 counterexample: the single row's update fails (Errored), yet its
dependency link is still created — the state machine does not stop at the
failed update. -/
theorem c5_counterexample :
    (cuMain liveCfg updateFailTrk [mkRow (some "K-1") none none (some "D-1")]).1 =
      [Call.updateIssue "K-1", Call.createLink "K-1" "D-1"] ∧
    (cuMain liveCfg updateFailTrk [mkRow (some "K-1") none none (some "D-1")]).2 =
      Except.ok (⟨[], [], none, [], 0, 1, 0⟩ : CUState) := ⟨rfl, rfl⟩

/-! ### C9: the row cap -/

theorem getComponentsMap_updated (trk : Tracker) (st : CUState) :
    ∀ m st1, (getComponentsMap trk st).2 = Except.ok (m, st1) → st1.updated = st.updated := by
  unfold getComponentsMap
  split
  · intro m st1 h
    cases h
    rfl
  · split
    next e hr => intro m st1 h; simp at h
    next comps hr => intro m st1 h; cases h; rfl

theorem bfComponents_updated (trk : Tracker) (pid : String) (row : Row) (st : CUState) :
    ∀ f st1, (bfComponents trk pid row st).2 = Except.ok (f, st1) →
      st1.updated = st.updated := by
  unfold bfComponents
  split
  · rcases hm : getComponentsMap trk st with ⟨t, em⟩
    cases em with
    | error e => intro f st1 h; simp at h
    | ok p =>
      rcases p with ⟨m, stm⟩
      have hup := getComponentsMap_updated trk st m stm (by rw [hm])
      dsimp only
      rcases hr : resolveComponents trk pid (pySplitTrim (presVal row.components)) m
        with ⟨t2, er⟩
      cases er with
      | error e => intro f st1 h; simp at h
      | ok p2 =>
        rcases p2 with ⟨ids, m2⟩
        intro f st1 h
        cases h
        exact hup
  · intro f st1 h
    cases h
    rfl

theorem get_or_create_version_state (trk : Tracker) (pid : String) (st : CUState)
    (name : String) :
    ∀ vid st2, (get_or_create_version trk pid st name).2 = Except.ok (vid, st2) →
      st2.updated = st.updated ∧ st2.compCache = st.compCache := by
  unfold get_or_create_version
  split
  · intro vid st2 h
    cases h
    exact ⟨rfl, rfl⟩
  · split
    next e hr => intro vid st2 h; simp at h
    next remote hr =>
      split
      · intro vid st2 h
        cases h
        exact ⟨rfl, rfl⟩
      · split
        next e hc => intro vid st2 h; simp at h
        next vid2 hc =>
          intro vid st2 h
          cases h
          exact ⟨rfl, rfl⟩

theorem resolveVersions_state (trk : Tracker) (pid : String) :
    ∀ (names : List String) (st : CUState) ids st2,
      (resolveVersions trk pid names st).2 = Except.ok (ids, st2) →
      st2.updated = st.updated ∧ st2.compCache = st.compCache := by
  intro names
  induction names with
  | nil =>
    intro st ids st2 h
    cases h
    exact ⟨rfl, rfl⟩
  | cons n rest ih =>
    intro st ids st2 h
    unfold resolveVersions at h
    rcases hr : get_or_create_version trk pid st n with ⟨t, er⟩
    rw [hr] at h
    cases er with
    | error e => simp at h
    | ok p =>
      rcases p with ⟨vid, stv⟩
      have h1 := get_or_create_version_state trk pid st n vid stv (by rw [hr])
      dsimp only at h
      rcases hl : resolveVersions trk pid rest stv with ⟨t2, er2⟩
      rw [hl] at h
      cases er2 with
      | error e => simp at h
      | ok p2 =>
        rcases p2 with ⟨ids2, st3⟩
        dsimp only at h
        cases h
        have h2 := ih stv ids2 st2 (by rw [hl])
        exact ⟨h2.1.trans h1.1, h2.2.trans h1.2⟩

theorem resolve_user_state (trk : Tracker) (st : CUState) (email : String) :
    ∀ acct st2, (resolve_user trk st email).2 = Except.ok (acct, st2) →
      st2.updated = st.updated ∧ st2.compCache = st.compCache := by
  unfold resolve_user
  split
  · intro acct st2 h
    cases h
    exact ⟨rfl, rfl⟩
  · split
    next e hr => intro acct st2 h; simp at h
    next acct2 hr =>
      intro acct st2 h
      cases h
      exact ⟨rfl, rfl⟩

theorem bfVersions_state (trk : Tracker) (pid : String) (row : Row) (st : CUState) :
    ∀ f st1, (bfVersions trk pid row st).2 = Except.ok (f, st1) →
      st1.updated = st.updated ∧ st1.compCache = st.compCache := by
  unfold bfVersions
  split
  · rcases hr : resolveVersions trk pid (pySplitTrim (presVal row.fixVersions)) st
      with ⟨t, er⟩
    cases er with
    | error e => intro f st1 h; simp at h
    | ok p =>
      rcases p with ⟨ids, stv⟩
      intro f st1 h
      cases h
      exact resolveVersions_state trk pid (pySplitTrim (presVal row.fixVersions)) st ids stv
        (by rw [hr])
  · intro f st1 h
    cases h
    exact ⟨rfl, rfl⟩

theorem bfAssignee_state (trk : Tracker) (row : Row) (st : CUState) :
    ∀ f st1, (bfAssignee trk row st).2 = Except.ok (f, st1) →
      st1.updated = st.updated ∧ st1.compCache = st.compCache := by
  unfold bfAssignee
  split
  · rcases hr : resolve_user trk st (pyStripS (presVal row.assigneeEmail)) with ⟨t, er⟩
    cases er with
    | error e => intro f st1 h; simp at h
    | ok p =>
      rcases p with ⟨acct, stu⟩
      have h1 := resolve_user_state trk st (pyStripS (presVal row.assigneeEmail)) acct stu
        (by rw [hr])
      cases acct with
      | none => intro f st1 h; cases h; exact h1
      | some a => intro f st1 h; cases h; exact h1
  · intro f st1 h
    cases h
    exact ⟨rfl, rfl⟩

theorem build_fields_updated (cfg : CUConfig) (trk : Tracker) (pid : String) (row : Row)
    (st : CUState) :
    ∀ f st3, (build_fields cfg trk pid row st).2 = Except.ok (f, st3) →
      st3.updated = st.updated := by
  unfold build_fields
  rcases hr : bfComponents trk pid row st with ⟨t, er⟩
  cases er with
  | error e => intro f st3 h; simp at h
  | ok p =>
    rcases p with ⟨fc, st1⟩
    have h1 := bfComponents_updated trk pid row st fc st1 (by rw [hr])
    dsimp only
    rcases hr2 : bfVersions trk pid row st1 with ⟨t2, er2⟩
    cases er2 with
    | error e => intro f st3 h; simp at h
    | ok p2 =>
      rcases p2 with ⟨fv, st2⟩
      have h2 := bfVersions_state trk pid row st1 fv st2 (by rw [hr2])
      dsimp only
      rcases hr3 : bfAssignee trk row st2 with ⟨t3, er3⟩
      cases er3 with
      | error e => intro f st3 h; simp at h
      | ok p3 =>
        rcases p3 with ⟨fa, st4⟩
        have h3 := bfAssignee_state trk row st2 fa st4 (by rw [hr3])
        intro f st3 h
        cases h
        rw [h3.1, h2.1, h1]

theorem cuRowWithKey_updated (cfg : CUConfig) (trk : Tracker) (pid : String) (row : Row)
    (st : CUState) (key : String) :
    ∀ st2, (cuRowWithKey cfg trk pid row st key).2 = Except.ok st2 →
      st2.updated ≤ st.updated + 1 := by
  unfold cuRowWithKey
  rcases hr : build_fields cfg trk pid row st with ⟨t, er⟩
  cases er with
  | error e => intro st2 h; simp at h
  | ok p =>
    rcases p with ⟨fields, st1⟩
    have hb := build_fields_updated cfg trk pid row st fields st1 (by rw [hr])
    dsimp only
    intro st2 h
    cases h
    rcases hu : (update_issue_fields trk key fields cfg.dryRun).2 with e | u <;>
      simp [hu] <;> omega

theorem cuRow_updated (cfg : CUConfig) (trk : Tracker) (pid : String) (row : Row)
    (st : CUState) :
    ∀ st2, (cuRow cfg trk pid row st).2 = Except.ok st2 → st2.updated ≤ st.updated + 1 := by
  unfold cuRow
  dsimp only
  split
  · split
    · intro st2 h
      cases h
      simp
    · split
      next e hr => intro st2 h; simp at h
      next issues hr =>
        split
        · intro st2 h
          cases h
          simp
        next k hk => exact cuRowWithKey_updated cfg trk pid row st k
  · exact cuRowWithKey_updated cfg trk pid row st (pyStripS (presVal row.issueKey))

theorem cuLoop_updated_le (cfg : CUConfig) (trk : Tracker) (pid : String) (m : Nat)
    (hm : cfg.maxRows = some m) (hm0 : m ≠ 0) :
    ∀ (rows : List Row) (st : CUState), st.updated ≤ m →
      ∀ st2, (cuLoop cfg trk pid rows st).2 = Except.ok st2 → st2.updated ≤ m := by
  intro rows
  induction rows with
  | nil =>
    intro st hst st2 h
    cases h
    exact hst
  | cons row rest ih =>
    intro st hst st2 h
    unfold cuLoop at h
    by_cases hmax : maxReached cfg.maxRows st.updated = true
    · rw [if_pos hmax] at h
      cases h
      exact hst
    · rw [if_neg hmax] at h
      have hlt : st.updated < m := by
        simp [maxReached, hm, hm0] at hmax
        omega
      rcases hr : cuRow cfg trk pid row st with ⟨t, er⟩
      rw [hr] at h
      cases er with
      | error e => simp at h
      | ok st1 =>
        have h1 : st1.updated ≤ st.updated + 1 := cuRow_updated cfg trk pid row st st1
          (by rw [hr])
        dsimp only at h
        rcases hl : cuLoop cfg trk pid rest st1 with ⟨t2, r2⟩
        rw [hl] at h
        dsimp only at h
        exact ih st1 (by omega) st2 (by rw [hl]; exact h)

/-- Claim C9 (amended): the `--max N` cap (N nonzero) bounds the number
of successful updates by N, and the check before each row stops the loop
as soon as `updated` has reached N; rows that merely skip or error do not
count toward the cap, so more than N rows may still begin processing. -/
theorem c9_row_cap (cfg : CUConfig) (trk : Tracker) (rows : List Row) (m : Nat)
    (hm : cfg.maxRows = some m) (hm0 : m ≠ 0) :
    (∀ st2, (cuMain cfg trk rows).2 = Except.ok st2 → st2.updated ≤ m) ∧
    (∀ pid rows2 st, m ≤ st.updated → cuLoop cfg trk pid rows2 st = ([], Except.ok st)) := by
  constructor
  · intro st2 h
    unfold cuMain at h
    rcases hp : trk.projectResp with e | pid
    · rw [hp] at h
      simp at h
    · rw [hp] at h
      exact cuLoop_updated_le cfg trk pid m hm hm0 rows initState (by simp [initState]) st2 h
  · intro pid rows2 st hle
    cases rows2 with
    | nil => rfl
    | cons row rest =>
      unfold cuLoop
      rw [if_pos]
      simp [maxReached, hm, hm0, hle]

/-- Witness for C9: the concrete capped run ends with `updated = 1 ≤ 1`. -/
theorem c9_row_cap_witness : (⟨[], [], none, [], 1, 0, 1⟩ : CUState).updated ≤ 1 :=
  (c9_row_cap c9Cfg okTrk c9Rows 1 rfl (by decide)).1 ⟨[], [], none, [], 1, 0, 1⟩ rfl

/-- C9 counterexample: with `--max 1`, the first row is processed and
skipped, and the second row still begins processing (its update call is
issued) — more than N rows of the batch are processed. -/
theorem c9_counterexample :
    c9Cfg.maxRows = some 1 ∧
    (cuMain c9Cfg okTrk c9Rows).1 = [Call.updateIssue "K-2"] ∧
    (cuMain c9Cfg okTrk c9Rows).2 = Except.ok (⟨[], [], none, [], 1, 0, 1⟩ : CUState) :=
  ⟨rfl, rfl, rfl⟩

/-! ### C10: the importer parent invariant -/

theorem appendColon_ne (cp s : String) : cp ++ ":" ++ s ≠ cp := by
  intro h
  have h2 := congrArg String.length h
  rw [String.length_append, String.length_append] at h2
  have h3 : (":" : String).length = 1 := rfl
  omega

theorem parentsLinkedOk_append :
    ∀ (t1 t2 : List Call) (last : Option (Option String)),
      parentsLinkedOk (t1 ++ t2) last =
        (parentsLinkedOk t1 last && parentsLinkedOk t2 (lastTaskKey t1 last))
  | [], t2, last => by simp [parentsLinkedOk, lastTaskKey]
  | Call.createIssue s none k :: rest, t2, last => by
    simp only [List.cons_append, parentsLinkedOk, lastTaskKey, List.append_eq]
    rw [parentsLinkedOk_append rest t2 (some k)]
  | Call.createIssue s (some p) k :: rest, t2, last => by
    simp only [List.cons_append, parentsLinkedOk, lastTaskKey, List.append_eq]
    rw [parentsLinkedOk_append rest t2 last, Bool.and_assoc]
  | Call.createComponent a b :: rest, t2, last => by
    simp only [List.cons_append, parentsLinkedOk, lastTaskKey, List.append_eq]
    rw [parentsLinkedOk_append rest t2 last]
  | Call.createVersion a b :: rest, t2, last => by
    simp only [List.cons_append, parentsLinkedOk, lastTaskKey, List.append_eq]
    rw [parentsLinkedOk_append rest t2 last]
  | Call.updateIssue a :: rest, t2, last => by
    simp only [List.cons_append, parentsLinkedOk, lastTaskKey, List.append_eq]
    rw [parentsLinkedOk_append rest t2 last]
  | Call.createLink a b :: rest, t2, last => by
    simp only [List.cons_append, parentsLinkedOk, lastTaskKey, List.append_eq]
    rw [parentsLinkedOk_append rest t2 last]
  | Call.deleteIssue a :: rest, t2, last => by
    simp only [List.cons_append, parentsLinkedOk, lastTaskKey, List.append_eq]
    rw [parentsLinkedOk_append rest t2 last]

theorem lastTaskKey_append :
    ∀ (t1 t2 : List Call) (last : Option (Option String)),
      lastTaskKey (t1 ++ t2) last = lastTaskKey t2 (lastTaskKey t1 last)
  | [], t2, last => by simp [lastTaskKey]
  | Call.createIssue s none k :: rest, t2, last => by
    simp only [List.cons_append, lastTaskKey, List.append_eq]
    rw [lastTaskKey_append rest t2 (some k)]
  | Call.createIssue s (some p) k :: rest, t2, last => by
    simp only [List.cons_append, lastTaskKey, List.append_eq]
    rw [lastTaskKey_append rest t2 last]
  | Call.createComponent a b :: rest, t2, last => by
    simp only [List.cons_append, lastTaskKey, List.append_eq]
    rw [lastTaskKey_append rest t2 last]
  | Call.createVersion a b :: rest, t2, last => by
    simp only [List.cons_append, lastTaskKey, List.append_eq]
    rw [lastTaskKey_append rest t2 last]
  | Call.updateIssue a :: rest, t2, last => by
    simp only [List.cons_append, lastTaskKey, List.append_eq]
    rw [lastTaskKey_append rest t2 last]
  | Call.createLink a b :: rest, t2, last => by
    simp only [List.cons_append, lastTaskKey, List.append_eq]
    rw [lastTaskKey_append rest t2 last]
  | Call.deleteIssue a :: rest, t2, last => by
    simp only [List.cons_append, lastTaskKey, List.append_eq]
    rw [lastTaskKey_append rest t2 last]

theorem parentsLinkedOk_no_create :
    ∀ (t : List Call) (last : Option (Option String)),
      (∀ e ∈ t, isCreateIssueCall e = false) →
      parentsLinkedOk t last = true ∧ lastTaskKey t last = last := by
  intro t
  induction t with
  | nil => intro last h; exact ⟨rfl, rfl⟩
  | cons c rest ih =>
    intro last h
    have hrest := fun last2 => ih last2 (fun e he => h e (by simp [he]))
    cases c with
    | createIssue s p k =>
      have := h (Call.createIssue s p k) (by simp)
      simp [isCreateIssueCall] at this
    | createComponent a b =>
      exact ⟨(hrest last).1, (hrest last).2⟩
    | createVersion a b => exact ⟨(hrest last).1, (hrest last).2⟩
    | updateIssue a => exact ⟨(hrest last).1, (hrest last).2⟩
    | createLink a b => exact ⟨(hrest last).1, (hrest last).2⟩
    | deleteIssue a => exact ⟨(hrest last).1, (hrest last).2⟩

theorem wipePhase_no_create (cfg : ImpConfig) (trk : ImpTracker) :
    ∀ e ∈ (wipePhase cfg trk).1, isCreateIssueCall e = false := by
  unfold wipePhase
  split
  · simp
  · split
    · simp
    · intro e he
      split at he
      · simp at he
      · simp only [List.mem_map] at he
        obtain ⟨k, _, rfl⟩ := he
        rfl

theorem linkPhase_no_create (cfg : ImpConfig) :
    ∀ pls : List (String × String), ∀ e ∈ linkPhase cfg pls, isCreateIssueCall e = false := by
  intro pls
  induction pls with
  | nil => intro e he; simp [linkPhase] at he
  | cons p rest ih =>
    intro e he
    rcases p with ⟨a, b⟩
    unfold linkPhase at he
    simp only [List.mem_append] at he
    rcases he with he | he
    · split at he
      · simp at he
      · simp only [List.mem_singleton] at he
        subst he
        rfl
    · exact ih e he

theorem imp_create_issue_live (cfg : ImpConfig) (trk : ImpTracker) (st : ImpState)
    (s : String) (p : Option String) (hlive : cfg.dryRun = false) :
    imp_create_issue cfg trk st s p =
      match trk.createResp st.createCount with
      | some k => ([Call.createIssue s p (some k)], some k, st.createCount + 1)
      | none => ([Call.createIssue s p none], none, st.createCount + 1) := by
  unfold imp_create_issue
  rw [hlive]
  rfl

theorem impTaskRow_inv (cfg : ImpConfig) (trk : ImpTracker) (row : ImpRow) (st : ImpState)
    (last : Option (Option String)) (hlive : cfg.dryRun = false) :
    parentsLinkedOk (impTaskRow cfg trk row st).1 last = true ∧
    (∀ st1, (impTaskRow cfg trk row st).2 = Except.ok st1 →
      impInv st1 (lastTaskKey (impTaskRow cfg trk row st).1 last)) := by
  unfold impTaskRow
  rw [imp_create_issue_live cfg trk st row.summary none hlive]
  cases hc : trk.createResp st.createCount with
  | none =>
    dsimp only
    exact ⟨by simp [parentsLinkedOk], fun st1 h => by simp at h⟩
  | some k =>
    dsimp only
    constructor
    · simp [parentsLinkedOk]
    · intro st1 h
      cases h
      simp only [lastTaskKey, impInv]
      exact ⟨k, rfl, fun _ => by simp [lookupBy]⟩

theorem impSubRow_inv (cfg : ImpConfig) (trk : ImpTracker) (row : ImpRow) (st : ImpState)
    (cp pk : String) (last : Option (Option String)) (hlive : cfg.dryRun = false)
    (hcp : st.currentParent = some cp) (hpk : lookupBy st.created cp = some pk)
    (hinv : impInv st last) (hne : cp ≠ "") :
    parentsLinkedOk (impSubRow cfg trk row st cp pk).1 last = true ∧
    (∀ st1, (impSubRow cfg trk row st cp pk).2 = Except.ok st1 →
      impInv st1 (lastTaskKey (impSubRow cfg trk row st cp pk).1 last)) := by
  have hinv2 : ∃ k0, last = some (some k0) ∧ (cp ≠ "" → lookupBy st.created cp = some k0) := by
    unfold impInv at hinv
    rw [hcp] at hinv
    exact hinv
  obtain ⟨k0, hlast, hk0⟩ := hinv2
  have hpk0 : pk = k0 := by
    have h2 := hk0 hne
    rw [hpk] at h2
    exact Option.some.inj h2
  subst hpk0
  subst hlast
  have htr := impSubRow_trace cfg trk row st cp pk
  rw [imp_create_issue_live cfg trk st row.summary (some pk) hlive] at htr
  cases hc : trk.createResp st.createCount with
  | none =>
    rw [hc] at htr
    constructor
    · rw [htr]
      simp [parentsLinkedOk]
    · intro st1 h
      unfold impSubRow at h
      rw [imp_create_issue_live cfg trk st row.summary (some pk) hlive, hc] at h
      simp at h
  | some k =>
    rw [hc] at htr
    have hlk : ∀ st2 : ImpState, st2.created = (cp ++ ":" ++ row.summary, k) :: st.created →
        st2.currentParent = st.currentParent →
        impInv st2 (lastTaskKey [Call.createIssue row.summary (some pk) (some k)]
          (some (some pk))) := by
      intro st2 hc2 hp2
      simp only [lastTaskKey, impInv, hp2, hcp]
      refine ⟨pk, rfl, fun _ => ?_⟩
      rw [hc2]
      simp only [lookupBy]
      rw [if_neg]
      · exact hk0 hne
      · exact appendColon_ne cp row.summary
    constructor
    · rw [htr]
      simp [parentsLinkedOk]
    · intro st1 h
      rw [htr]
      unfold impSubRow at h
      rw [imp_create_issue_live cfg trk st row.summary (some pk) hlive, hc] at h
      dsimp only at h
      split at h
      · cases h
        refine hlk _ ?_ ?_ <;> rfl
      · split at h
        · cases h
          refine hlk _ ?_ ?_ <;> rfl
        · cases h
          refine hlk _ ?_ ?_ <;> rfl

theorem impRow_inv (cfg : ImpConfig) (trk : ImpTracker) (row : ImpRow) (st : ImpState)
    (last : Option (Option String)) (hlive : cfg.dryRun = false) (hinv : impInv st last) :
    parentsLinkedOk (impRow cfg trk row st).1 last = true ∧
    (∀ st1, (impRow cfg trk row st).2 = Except.ok st1 →
      impInv st1 (lastTaskKey (impRow cfg trk row st).1 last)) := by
  unfold impRow
  by_cases ht : row.issueType = "Task"
  · rw [if_pos ht]
    exact impTaskRow_inv cfg trk row st last hlive
  · rw [if_neg ht]
    by_cases hs : row.issueType = "Sub-task"
    · rw [if_pos hs]
      by_cases hpi : parentInvalid st = true
      · rw [if_pos hpi]
        exact ⟨rfl, fun st1 h => by simp at h⟩
      · rw [if_neg hpi]
        cases hcp : st.currentParent with
        | none => exact ⟨rfl, fun st1 h => by simp at h⟩
        | some cp =>
          dsimp only
          cases hpk : lookupBy st.created cp with
          | none => exact ⟨rfl, fun st1 h => by simp at h⟩
          | some pk =>
            dsimp only
            have hne : cp ≠ "" := by
              intro he
              apply hpi
              simp [parentInvalid, hcp, he]
            exact impSubRow_inv cfg trk row st cp pk last hlive hcp hpk hinv hne
    · rw [if_neg hs]
      exact ⟨rfl, fun st1 h => by cases h; exact hinv⟩

theorem impLoop_inv (cfg : ImpConfig) (trk : ImpTracker) (hlive : cfg.dryRun = false) :
    ∀ (rows : List ImpRow) (st : ImpState) (last : Option (Option String)), impInv st last →
      parentsLinkedOk (impLoop cfg trk rows st).1 last = true ∧
      (∀ st1, (impLoop cfg trk rows st).2 = Except.ok st1 →
        impInv st1 (lastTaskKey (impLoop cfg trk rows st).1 last)) := by
  intro rows
  induction rows with
  | nil =>
    intro st last hinv
    exact ⟨rfl, fun st1 h => by cases h; exact hinv⟩
  | cons row rest ih =>
    intro st last hinv
    unfold impLoop
    rcases hr : impRow cfg trk row st with ⟨t, er⟩
    have hro := impRow_inv cfg trk row st last hlive hinv
    rw [hr] at hro
    cases er with
    | error e => exact ⟨hro.1, fun st1 h => by simp at h⟩
    | ok stm =>
      dsimp only
      have hinv1 : impInv stm (lastTaskKey t last) := hro.2 stm rfl
      rcases hl : impLoop cfg trk rest stm with ⟨t2, r2⟩
      have hl2 := ih stm (lastTaskKey t last) hinv1
      rw [hl] at hl2
      constructor
      · rw [parentsLinkedOk_append]
        simp [hro.1, hl2.1]
      · intro st1 h
        rw [lastTaskKey_append]
        exact hl2.2 st1 h

theorem impLoop_subFirst (cfg : ImpConfig) (trk : ImpTracker) :
    ∀ (rows : List ImpRow) (st : ImpState), st.currentParent = none →
      subBeforeTask rows = true → exOk (impLoop cfg trk rows st).2 = false := by
  intro rows
  induction rows with
  | nil => intro st h hs; simp [subBeforeTask] at hs
  | cons r rest ih =>
    intro st h hs
    unfold subBeforeTask at hs
    by_cases ht : r.issueType = "Task"
    · rw [if_pos ht] at hs
      simp at hs
    · rw [if_neg ht] at hs
      by_cases hsub : r.issueType = "Sub-task"
      · unfold impLoop impRow
        rw [if_neg ht, if_pos hsub]
        have hpi : parentInvalid st = true := by simp [parentInvalid, h]
        rw [if_pos hpi]
        rfl
      · rw [if_neg hsub] at hs
        unfold impLoop impRow
        rw [if_neg ht, if_neg hsub]
        dsimp only
        rcases hl : impLoop cfg trk rest st with ⟨t2, r2⟩
        have h2 := ih st h hs
        rw [hl] at h2
        exact h2

/-- Claim C10: in a live import, every Sub-task issue is created with its
parent field equal to the key returned for the nearest preceding Task
row's create call (formally: in the trace, every with-parent create names
the result key of the latest preceding parentless create), and a
Sub-task row that appears before any Task row terminates the entire run
with an error. -/
theorem c10_parent_invariant (cfg : ImpConfig) (trk : ImpTracker) (rows : List ImpRow)
    (hlive : cfg.dryRun = false) :
    parentsLinkedOk (impMain cfg trk rows).1 none = true ∧
    (subBeforeTask rows = true → exOk (impMain cfg trk rows).2 = false) := by
  constructor
  · unfold impMain
    rcases hw : wipePhase cfg trk with ⟨tw, ew⟩
    have hwc : ∀ e ∈ tw, isCreateIssueCall e = false := by
      have h2 := wipePhase_no_create cfg trk
      rw [hw] at h2
      exact h2
    have hwp := parentsLinkedOk_no_create tw none hwc
    cases ew with
    | error e => exact hwp.1
    | ok u =>
      dsimp only
      rcases hl : impLoop cfg trk rows impInit with ⟨tl, el⟩
      have hli := impLoop_inv cfg trk hlive rows impInit none (by simp [impInv, impInit])
      rw [hl] at hli
      cases el with
      | error e =>
        rw [parentsLinkedOk_append, hwp.1, hwp.2]
        simp [hli.1]
      | ok st =>
        dsimp only
        have hlc := linkPhase_no_create cfg st.pendingLinks
        have hlp := parentsLinkedOk_no_create (linkPhase cfg st.pendingLinks)
          (lastTaskKey tl none) hlc
        rw [parentsLinkedOk_append, parentsLinkedOk_append, lastTaskKey_append,
          hwp.1, hwp.2, hli.1, hlp.1]
        rfl
  · intro hsb
    unfold impMain
    rcases hw : wipePhase cfg trk with ⟨tw, ew⟩
    cases ew with
    | error e => rfl
    | ok u =>
      dsimp only
      rcases hl : impLoop cfg trk rows impInit with ⟨tl, el⟩
      have h2 := impLoop_subFirst cfg trk rows impInit rfl hsb
      rw [hl] at h2
      cases el with
      | error e => rfl
      | ok st => simp [exOk] at h2

/-- Witness for C10: a live `[Task, Sub-task]` batch satisfies the parent
invariant, and a batch starting with a Sub-task errors out. -/
theorem c10_parent_invariant_witness :
    parentsLinkedOk (impMain impLiveCfg okImpTrk [taskRowA, subRowDesign]).1 none = true ∧
    exOk (impMain impLiveCfg okImpTrk [subRowDesign]).2 = false :=
  ⟨(c10_parent_invariant impLiveCfg okImpTrk [taskRowA, subRowDesign] rfl).1,
   (c10_parent_invariant impLiveCfg okImpTrk [subRowDesign] rfl).2 (by decide)⟩

/-! ### C7: component creation is performed at most once per name -/

theorem filterMap_none {α β : Type} (f : α → Option β) :
    ∀ l : List α, (∀ e ∈ l, f e = none) → l.filterMap f = [] := by
  intro l
  induction l with
  | nil => intro h; rfl
  | cons a rest ih =>
    intro h
    rw [List.filterMap_cons, h a (by simp)]
    exact ih fun e he => h e (by simp [he])

theorem createdCompNamesCI_append (t1 t2 : List Call) :
    createdCompNamesCI (t1 ++ t2) = createdCompNamesCI t1 ++ createdCompNamesCI t2 := by
  unfold createdCompNamesCI
  rw [List.filterMap_append, List.map_append]

theorem createdCompNamesCI_cons_comp (pid n : String) (t : List Call) :
    createdCompNamesCI (Call.createComponent pid n :: t) =
      pyLowerS n :: createdCompNamesCI t := by
  simp [createdCompNamesCI, List.filterMap_cons, createCompName]

theorem createdCompNamesCI_of_none (t : List Call) (h : ∀ e ∈ t, createCompName e = none) :
    createdCompNamesCI t = [] := by
  unfold createdCompNamesCI
  rw [filterMap_none _ t h]
  rfl

theorem lookupBy_cons_none {β : Type} (a : String × β) (l : List (String × β)) (k : String)
    (h : lookupBy (a :: l) k = none) : a.1 ≠ k ∧ lookupBy l k = none := by
  unfold lookupBy at h
  split at h
  · simp at h
  · exact ⟨by assumption, h⟩

theorem lookupBy_cons_isSome {β : Type} (a : String × β) (l : List (String × β)) (k : String)
    (h : (lookupBy l k).isSome = true) : (lookupBy (a :: l) k).isSome = true := by
  unfold lookupBy
  split
  · simp
  · exact h

theorem lookupBy_cons_self {β : Type} (x : String) (v : β) (l : List (String × β)) :
    (lookupBy ((x, v) :: l) x).isSome = true := by
  simp [lookupBy]

theorem lookup_builtMap (remote : List CompEntry) :
    ∀ x ∈ loweredRemote remote,
      (lookupBy (remote.map (fun c => (pyLowerS (pyStripS c.name), c.id))) x).isSome = true := by
  induction remote with
  | nil => simp [loweredRemote]
  | cons c rest ih =>
    intro x hx
    simp only [loweredRemote, List.map_cons, List.mem_cons] at hx
    rcases hx with rfl | hx
    · simp [lookupBy]
    · by_cases h : pyLowerS (pyStripS c.name) = x
      · simp [lookupBy, h]
      · simp only [List.map_cons, lookupBy, h, if_false]
        exact ih x (by simpa [loweredRemote] using hx)

theorem resolveComponents_spec (trk : Tracker) (pid : String) :
    ∀ (names : List String) (m : List (String × String)),
      (createdCompNamesCI (resolveComponents trk pid names m).1).Nodup ∧
      (∀ x ∈ createdCompNamesCI (resolveComponents trk pid names m).1, lookupBy m x = none) ∧
      (∀ ids m2, (resolveComponents trk pid names m).2 = Except.ok (ids, m2) →
        ∀ k, ((lookupBy m k).isSome = true ∨
              k ∈ createdCompNamesCI (resolveComponents trk pid names m).1) →
          (lookupBy m2 k).isSome = true) := by
  intro names
  induction names with
  | nil =>
    intro m
    refine ⟨List.nodup_nil, ?_, ?_⟩
    · intro x hx
      exact absurd hx (List.not_mem_nil x)
    · intro ids m2 h k hk
      cases h
      rcases hk with hk | hk
      · exact hk
      · exact absurd hk (List.not_mem_nil k)
  | cons n rest ih =>
    intro m
    unfold resolveComponents
    cases hl : lookupBy m (pyLowerS n) with
    | some cid =>
      dsimp only
      rcases hr : resolveComponents trk pid rest m with ⟨t, er⟩
      have hih := ih m
      rw [hr] at hih
      cases er with
      | error e =>
        exact ⟨hih.1, hih.2.1, fun ids m2 h => by simp at h⟩
      | ok p =>
        rcases p with ⟨ids0, m0⟩
        refine ⟨hih.1, hih.2.1, ?_⟩
        intro ids m2 h k hk
        dsimp only at h
        cases h
        exact hih.2.2 ids0 m0 rfl k hk
    | none =>
      dsimp only
      cases hc : trk.createComponentResp n with
      | error e =>
        refine ⟨by simp [createdCompNamesCI, List.filterMap_cons, createCompName], ?_, ?_⟩
        · intro x hx
          rw [createdCompNamesCI_cons_comp] at hx
          simp only [List.mem_cons] at hx
          rcases hx with rfl | hx
          · exact hl
          · simp [createdCompNamesCI] at hx
        · intro ids m2 h
          simp at h
      | ok cid =>
        dsimp only
        rcases hr : resolveComponents trk pid rest ((pyLowerS n, cid) :: m) with ⟨t, er⟩
        have hih := ih ((pyLowerS n, cid) :: m)
        rw [hr] at hih
        have hfresh : ∀ x ∈ createdCompNamesCI t,
            pyLowerS n ≠ x ∧ lookupBy m x = none := by
          intro x hx
          exact lookupBy_cons_none (pyLowerS n, cid) m x (hih.2.1 x hx)
        cases er with
        | error e =>
          refine ⟨?_, ?_, fun ids m2 h => by simp at h⟩
          · rw [createdCompNamesCI_cons_comp]
            exact List.nodup_cons.mpr ⟨fun hx => (hfresh _ hx).1 rfl, hih.1⟩
          · intro x hx
            rw [createdCompNamesCI_cons_comp] at hx
            simp only [List.mem_cons] at hx
            rcases hx with rfl | hx
            · exact hl
            · exact (hfresh x hx).2
        | ok p =>
          rcases p with ⟨ids0, m0⟩
          refine ⟨?_, ?_, ?_⟩
          · rw [createdCompNamesCI_cons_comp]
            exact List.nodup_cons.mpr ⟨fun hx => (hfresh _ hx).1 rfl, hih.1⟩
          · intro x hx
            rw [createdCompNamesCI_cons_comp] at hx
            simp only [List.mem_cons] at hx
            rcases hx with rfl | hx
            · exact hl
            · exact (hfresh x hx).2
          · intro ids m2 h k hk
            dsimp only at h
            cases h
            rw [createdCompNamesCI_cons_comp] at hk
            rcases hk with hk | hk
            · exact hih.2.2 ids0 m0 rfl k
                (Or.inl (lookupBy_cons_isSome (pyLowerS n, cid) m k hk))
            · simp only [List.mem_cons] at hk
              rcases hk with rfl | hk
              · exact hih.2.2 ids0 m0 rfl (pyLowerS n)
                  (Or.inl (lookupBy_cons_self (pyLowerS n) cid m))
              · exact hih.2.2 ids0 m0 rfl k (Or.inr hk)

theorem getComponentsMap_spec (trk : Tracker) (st : CUState) (remote : List CompEntry)
    (created : List String) (hresp : trk.componentsResp = Except.ok remote)
    (hinv : compInv (loweredRemote remote) st.compCache created) :
    (getComponentsMap trk st).1 = [] ∧
    ∀ m st1, (getComponentsMap trk st).2 = Except.ok (m, st1) →
      ∀ x, x ∈ loweredRemote remote ∨ x ∈ created → (lookupBy m x).isSome = true := by
  unfold getComponentsMap
  cases hcc : st.compCache with
  | some m0 =>
    refine ⟨rfl, ?_⟩
    intro m st1 h
    cases h
    unfold compInv at hinv
    rw [hcc] at hinv
    intro x hx
    rcases hx with hx | hx
    · exact hinv.2.2.1 x hx
    · exact hinv.2.2.2 x hx
  | none =>
    rw [hresp]
    refine ⟨rfl, ?_⟩
    intro m st1 h
    cases h
    unfold compInv at hinv
    rw [hcc] at hinv
    intro x hx
    rcases hx with hx | hx
    · exact lookup_builtMap remote x hx
    · rw [hinv.2.2] at hx
      simp at hx

theorem bfComponents_spec (trk : Tracker) (pid : String) (row : Row) (st : CUState)
    (remote : List CompEntry) (created : List String)
    (hresp : trk.componentsResp = Except.ok remote)
    (hinv : compInv (loweredRemote remote) st.compCache created) :
    ((created ++ createdCompNamesCI (bfComponents trk pid row st).1).Nodup ∧
     ∀ x ∈ created ++ createdCompNamesCI (bfComponents trk pid row st).1,
       x ∉ loweredRemote remote) ∧
    ∀ f st1, (bfComponents trk pid row st).2 = Except.ok (f, st1) →
      compInv (loweredRemote remote) st1.compCache
        (created ++ createdCompNamesCI (bfComponents trk pid row st).1) := by
  unfold bfComponents
  split
  · rcases hm : getComponentsMap trk st with ⟨tm, em⟩
    have hgm := getComponentsMap_spec trk st remote created hresp hinv
    rw [hm] at hgm
    have htm : tm = [] := hgm.1
    subst htm
    cases em with
    | error e =>
      refine ⟨⟨by simpa [createdCompNamesCI] using hinv.1, by simpa [createdCompNamesCI] using hinv.2.1⟩, ?_⟩
      intro f st1 h
      simp at h
    | ok p =>
      rcases p with ⟨m, stm⟩
      have habs : ∀ x, x ∈ loweredRemote remote ∨ x ∈ created →
          (lookupBy m x).isSome = true := hgm.2 m stm rfl
      dsimp only
      rcases hr : resolveComponents trk pid (pySplitTrim (presVal row.components)) m
        with ⟨t2, er⟩
      have hrc := resolveComponents_spec trk pid (pySplitTrim (presVal row.components)) m
      rw [hr] at hrc
      have hpart1 : (created ++ createdCompNamesCI t2).Nodup ∧
          ∀ x ∈ created ++ createdCompNamesCI t2, x ∉ loweredRemote remote := by
        constructor
        · refine List.nodup_append.mpr ⟨hinv.1, hrc.1, ?_⟩
          intro x hx hx2
          have h1 := habs x (Or.inr hx)
          have h2 := hrc.2.1 x hx2
          rw [h2] at h1
          simp at h1
        · intro x hx
          simp only [List.mem_append] at hx
          rcases hx with hx | hx
          · exact hinv.2.1 x hx
          · intro hrem
            have h1 := habs x (Or.inl hrem)
            have h2 := hrc.2.1 x hx
            rw [h2] at h1
            simp at h1
      cases er with
      | error e =>
        refine ⟨?_, ?_⟩
        · simpa using hpart1
        · intro f st1 h
          simp at h
      | ok p2 =>
        rcases p2 with ⟨ids, m2⟩
        refine ⟨by simpa using hpart1, ?_⟩
        intro f st1 h
        dsimp only at h
        cases h
        refine ⟨by simpa using hpart1.1, by simpa using hpart1.2, ?_, ?_⟩
        · intro x hx
          exact hrc.2.2 ids m2 rfl x (Or.inl (habs x (Or.inl hx)))
        · intro x hx
          simp only [List.mem_append] at hx
          rcases hx with hx | hx
          · exact hrc.2.2 ids m2 rfl x (Or.inl (habs x (Or.inr hx)))
          · exact hrc.2.2 ids m2 rfl x (Or.inr hx)
  · refine ⟨⟨by simpa [createdCompNamesCI] using hinv.1, by simpa [createdCompNamesCI] using hinv.2.1⟩, ?_⟩
    intro f st1 h
    cases h
    simpa [createdCompNamesCI] using hinv

theorem bfVersions_CN (trk : Tracker) (pid : String) (row : Row) (st : CUState) :
    createdCompNamesCI (bfVersions trk pid row st).1 = [] := by
  apply createdCompNamesCI_of_none
  intro e he
  obtain ⟨n, rfl⟩ := bfVersions_events trk pid row st e he
  rfl

theorem build_fields_CN (cfg : CUConfig) (trk : Tracker) (pid : String) (row : Row)
    (st : CUState) :
    createdCompNamesCI (build_fields cfg trk pid row st).1 =
      createdCompNamesCI (bfComponents trk pid row st).1 := by
  unfold build_fields
  rcases hr : bfComponents trk pid row st with ⟨t, er⟩
  cases er with
  | error e => rfl
  | ok p =>
    rcases p with ⟨fc, st1⟩
    dsimp only
    rcases hr2 : bfVersions trk pid row st1 with ⟨t2, er2⟩
    have hcn2 : createdCompNamesCI t2 = [] := by
      have h2 := bfVersions_CN trk pid row st1
      rw [hr2] at h2
      exact h2
    cases er2 with
    | error e =>
      rw [createdCompNamesCI_append, hcn2]
      simp
    | ok p2 =>
      rcases p2 with ⟨fv, st2⟩
      dsimp only
      rcases hr3 : bfAssignee trk row st2 with ⟨t3, er3⟩
      have hcn3 : createdCompNamesCI t3 = [] := by
        have h3 := bfAssignee_trace trk row st2
        rw [hr3] at h3
        have h3' : t3 = [] := h3
        subst h3'
        rfl
      cases er3 with
      | error e =>
        rw [createdCompNamesCI_append, createdCompNamesCI_append, hcn2, hcn3]
        simp
      | ok p3 =>
        rcases p3 with ⟨fa, st3⟩
        rw [createdCompNamesCI_append, createdCompNamesCI_append, hcn2, hcn3]
        simp

theorem build_fields_spec (cfg : CUConfig) (trk : Tracker) (pid : String) (row : Row)
    (st : CUState) (remote : List CompEntry) (created : List String)
    (hresp : trk.componentsResp = Except.ok remote)
    (hinv : compInv (loweredRemote remote) st.compCache created) :
    ((created ++ createdCompNamesCI (build_fields cfg trk pid row st).1).Nodup ∧
     ∀ x ∈ created ++ createdCompNamesCI (build_fields cfg trk pid row st).1,
       x ∉ loweredRemote remote) ∧
    ∀ f st3, (build_fields cfg trk pid row st).2 = Except.ok (f, st3) →
      compInv (loweredRemote remote) st3.compCache
        (created ++ createdCompNamesCI (build_fields cfg trk pid row st).1) := by
  have hbc := bfComponents_spec trk pid row st remote created hresp hinv
  rw [build_fields_CN]
  refine ⟨hbc.1, ?_⟩
  intro f st3 h
  unfold build_fields at h
  rcases hr : bfComponents trk pid row st with ⟨t, er⟩
  rw [hr] at h hbc
  cases er with
  | error e => simp at h
  | ok p =>
    rcases p with ⟨fc, st1⟩
    have hinv1 := hbc.2 fc st1 rfl
    dsimp only at h
    rcases hr2 : bfVersions trk pid row st1 with ⟨t2, er2⟩
    rw [hr2] at h
    cases er2 with
    | error e => simp at h
    | ok p2 =>
      rcases p2 with ⟨fv, st2⟩
      have hst2 := bfVersions_state trk pid row st1 fv st2 (by rw [hr2])
      dsimp only at h
      rcases hr3 : bfAssignee trk row st2 with ⟨t3, er3⟩
      rw [hr3] at h
      cases er3 with
      | error e => simp at h
      | ok p3 =>
        rcases p3 with ⟨fa, st4⟩
        have hst4 := bfAssignee_state trk row st2 fa st4 (by rw [hr3])
        dsimp only at h
        cases h
        rw [hst4.2, hst2.2]
        exact hinv1

theorem update_issue_fields_CN (trk : Tracker) (key : String) (fields : Fields) (d : Bool) :
    createdCompNamesCI (update_issue_fields trk key fields d).1 = [] := by
  apply createdCompNamesCI_of_none
  unfold update_issue_fields
  split
  · simp
  · split
    · intro e he
      simp only [List.mem_singleton] at he
      subst he
      rfl
    · intro e he
      simp only [List.mem_singleton] at he
      subst he
      rfl

theorem add_issue_link_CN (trk : Tracker) (a b : String) (d : Bool) :
    ∀ e ∈ (add_issue_link_is_blocked_by trk a b d).1, createCompName e = none := by
  unfold add_issue_link_is_blocked_by
  split
  · simp
  · split
    · intro e he
      simp only [List.mem_singleton] at he
      subst he
      rfl
    · intro e he
      simp only [List.mem_singleton] at he
      subst he
      rfl

theorem processDeps_CN (cfg : CUConfig) (trk : Tracker) (key : String) :
    ∀ (deps : List String) (linked : Nat),
      createdCompNamesCI (processDeps cfg trk key deps linked).1 = [] := by
  intro deps
  induction deps with
  | nil => intro linked; rfl
  | cons dep rest ih =>
    intro linked
    unfold processDeps
    dsimp only
    rw [createdCompNamesCI_append]
    by_cases hb : cfg.blockedByDirection = true
    · rw [if_pos hb,
        createdCompNamesCI_of_none _ (add_issue_link_CN trk key dep cfg.dryRun), ih]
      rfl
    · rw [if_neg hb,
        createdCompNamesCI_of_none _ (add_issue_link_CN trk dep key cfg.dryRun), ih]
      rfl

theorem cuRowWithKey_CN (cfg : CUConfig) (trk : Tracker) (pid : String) (row : Row)
    (st : CUState) (key : String) :
    createdCompNamesCI (cuRowWithKey cfg trk pid row st key).1 =
      createdCompNamesCI (build_fields cfg trk pid row st).1 := by
  unfold cuRowWithKey
  rcases hr : build_fields cfg trk pid row st with ⟨t, er⟩
  cases er with
  | error e => rfl
  | ok p =>
    rcases p with ⟨fields, st1⟩
    dsimp only
    rw [createdCompNamesCI_append, createdCompNamesCI_append,
      update_issue_fields_CN, processDeps_CN]
    simp

theorem cuRowWithKey_compCache (cfg : CUConfig) (trk : Tracker) (pid : String) (row : Row)
    (st : CUState) (key : String) :
    ∀ st2, (cuRowWithKey cfg trk pid row st key).2 = Except.ok st2 →
      ∃ f st1, (build_fields cfg trk pid row st).2 = Except.ok (f, st1) ∧
        st2.compCache = st1.compCache := by
  unfold cuRowWithKey
  rcases hr : build_fields cfg trk pid row st with ⟨t, er⟩
  cases er with
  | error e => intro st2 h; simp at h
  | ok p =>
    rcases p with ⟨fields, st1⟩
    dsimp only
    intro st2 h
    cases h
    refine ⟨fields, st1, rfl, ?_⟩
    rcases hu : (update_issue_fields trk key fields cfg.dryRun).2 with e | u <;> simp [hu]

theorem cuRowWithKey_spec (cfg : CUConfig) (trk : Tracker) (pid : String) (row : Row)
    (st : CUState) (key : String) (remote : List CompEntry) (created : List String)
    (hresp : trk.componentsResp = Except.ok remote)
    (hinv : compInv (loweredRemote remote) st.compCache created) :
    ((created ++ createdCompNamesCI (cuRowWithKey cfg trk pid row st key).1).Nodup ∧
     ∀ x ∈ created ++ createdCompNamesCI (cuRowWithKey cfg trk pid row st key).1,
       x ∉ loweredRemote remote) ∧
    ∀ st2, (cuRowWithKey cfg trk pid row st key).2 = Except.ok st2 →
      compInv (loweredRemote remote) st2.compCache
        (created ++ createdCompNamesCI (cuRowWithKey cfg trk pid row st key).1) := by
  have hbf := build_fields_spec cfg trk pid row st remote created hresp hinv
  rw [cuRowWithKey_CN]
  refine ⟨hbf.1, ?_⟩
  intro st2 h
  obtain ⟨f, st1, hb1, hcache⟩ := cuRowWithKey_compCache cfg trk pid row st key st2 h
  rw [hcache]
  exact hbf.2 f st1 hb1

theorem cuRow_spec (cfg : CUConfig) (trk : Tracker) (pid : String) (row : Row)
    (st : CUState) (remote : List CompEntry) (created : List String)
    (hresp : trk.componentsResp = Except.ok remote)
    (hinv : compInv (loweredRemote remote) st.compCache created) :
    ((created ++ createdCompNamesCI (cuRow cfg trk pid row st).1).Nodup ∧
     ∀ x ∈ created ++ createdCompNamesCI (cuRow cfg trk pid row st).1,
       x ∉ loweredRemote remote) ∧
    ∀ st2, (cuRow cfg trk pid row st).2 = Except.ok st2 →
      compInv (loweredRemote remote) st2.compCache
        (created ++ createdCompNamesCI (cuRow cfg trk pid row st).1) := by
  unfold cuRow
  dsimp only
  split
  · split
    · refine ⟨⟨by simpa [createdCompNamesCI] using hinv.1, by simpa [createdCompNamesCI] using hinv.2.1⟩, ?_⟩
      intro st2 h
      cases h
      simpa [createdCompNamesCI] using hinv
    · split
      next e hr =>
        refine ⟨⟨by simpa [createdCompNamesCI] using hinv.1, by simpa [createdCompNamesCI] using hinv.2.1⟩, ?_⟩
        intro st2 h
        simp at h
      next issues hr =>
        split
        · refine ⟨⟨by simpa [createdCompNamesCI] using hinv.1, by simpa [createdCompNamesCI] using hinv.2.1⟩, ?_⟩
          intro st2 h
          cases h
          simpa [createdCompNamesCI] using hinv
        next k hk =>
          exact cuRowWithKey_spec cfg trk pid row st k remote created hresp hinv
  · exact cuRowWithKey_spec cfg trk pid row st (pyStripS (presVal row.issueKey))
      remote created hresp hinv

theorem cuLoop_spec (cfg : CUConfig) (trk : Tracker) (pid : String) (remote : List CompEntry)
    (hresp : trk.componentsResp = Except.ok remote) :
    ∀ (rows : List Row) (st : CUState) (created : List String),
      compInv (loweredRemote remote) st.compCache created →
      (created ++ createdCompNamesCI (cuLoop cfg trk pid rows st).1).Nodup ∧
      ∀ x ∈ created ++ createdCompNamesCI (cuLoop cfg trk pid rows st).1,
        x ∉ loweredRemote remote := by
  intro rows
  induction rows with
  | nil =>
    intro st created hinv
    unfold cuLoop
    exact ⟨by simpa [createdCompNamesCI] using hinv.1, by simpa [createdCompNamesCI] using hinv.2.1⟩
  | cons row rest ih =>
    intro st created hinv
    unfold cuLoop
    split
    · exact ⟨by simpa [createdCompNamesCI] using hinv.1, by simpa [createdCompNamesCI] using hinv.2.1⟩
    · rcases hr : cuRow cfg trk pid row st with ⟨t, er⟩
      have hrow := cuRow_spec cfg trk pid row st remote created hresp hinv
      rw [hr] at hrow
      cases er with
      | error e => exact hrow.1
      | ok st1 =>
        dsimp only
        rcases hl : cuLoop cfg trk pid rest st1 with ⟨t2, r2⟩
        have hinv1 := hrow.2 st1 rfl
        have hrest := ih st1 (created ++ createdCompNamesCI t) hinv1
        rw [hl] at hrest
        rw [createdCompNamesCI_append]
        constructor
        · have h2 := hrest.1
          rwa [List.append_assoc] at h2
        · intro x hx
          apply hrest.2 x
          rw [List.append_assoc]
          exact hx

/-- Claim C7: in any ColumnUpdater run, at most one component-create call
is issued per (case-insensitive) component name: the lower-cased names of
the create calls in the trace are pairwise distinct, and each of them
names a component absent from the project's remote component list; in the
concrete two-row `"Deck"` scenario exactly one create call is made. -/
theorem c7_component_create_once (cfg : CUConfig) (trk : Tracker) (rows : List Row)
    (remote : List CompEntry) (hresp : trk.componentsResp = Except.ok remote) :
    (createdCompNamesCI (cuMain cfg trk rows).1).Nodup ∧
    (∀ x ∈ createdCompNamesCI (cuMain cfg trk rows).1, x ∉ loweredRemote remote) ∧
    (cuMain dryCfg okTrk deckRows).1.filterMap createCompName = ["Deck"] := by
  refine ⟨?_, ?_, rfl⟩ <;>
  · unfold cuMain
    cases hp : trk.projectResp with
    | error e => simp [createdCompNamesCI]
    | ok pid =>
      have h := cuLoop_spec cfg trk pid remote hresp rows initState []
        ⟨List.nodup_nil, by simp, rfl⟩
      first
        | simpa using h.1
        | (intro x hx; exact h.2 x (by simpa using hx))

/-- Witness for C7: the concrete `"Deck"` scenario has pairwise-distinct
lower-cased component-create names. -/
theorem c7_component_create_once_witness :
    (createdCompNamesCI (cuMain dryCfg okTrk deckRows).1).Nodup :=
  (c7_component_create_once dryCfg okTrk deckRows [] rfl).1

end JiraAutomator
